import Mathlib

/-!
Verification of a two-phase grain-distribution simulator.

The program under study is a Python/pandas module exposing
`run_simulation(master_workbook, settings, lgs, fps, vehicles)` which runs

1. an LG→FPS dispatch phase (priority by urgency, vehicle mapping,
   per-vehicle daily trip caps), producing a depot→outlet dispatch ledger
   and end-of-day stock snapshots, and
2. a CG→LG pre-dispatch phase consuming the daily requirement derived from
   phase 1 by grouping dispatch quantities by (LG, Day).

This file is a shallow embedding of that module: pandas DataFrames become
lists of records, Python dicts become insertion-ordered association lists,
floats become exact rationals, and the raised exceptions become an
`Except String` result.  The embedding follows the Python source
statement by statement; each definition carries a note naming the source
construct it translates.
-/

namespace Sim

/-- Quantities (tons) are modelled as exact rationals in place of Python floats. -/
abbrev Q := ℚ

/-- Numerical tolerance used by the CG→LG loop (`1e-9` in the source). -/
def eps : Q := 1 / 1000000000

/-- Python `min(a, b)`. -/
def qmin (a b : Q) : Q := if a ≤ b then a else b

/-- Python `max(a, b)`. -/
def qmax (a b : Q) : Q := if a ≤ b then b else a

/-! ### Python dicts as insertion-ordered association lists

Python 3.7+ dicts preserve insertion order; assigning an existing key keeps
its position, assigning a new key appends.  `alGet` models `d.get(k, 0.0)`
(and plain `d[k]` at keys known to be present), `alSet` models `d[k] = v`. -/

abbrev AL := List (Int × Q)

def alGet : AL → Int → Q
  | [], _ => 0
  | p :: ps, k => if p.1 = k then p.2 else alGet ps k

def alHas : AL → Int → Bool
  | [], _ => false
  | p :: ps, k => decide (p.1 = k) || alHas ps k

def alUpd : AL → Int → Q → AL
  | [], _, _ => []
  | p :: ps, k, v => (if p.1 = k then (k, v) else p) :: alUpd ps k v

def alSet (al : AL) (k : Int) (v : Q) : AL :=
  if alHas al k then alUpd al k v else al ++ [(k, v)]

/-- String-keyed dict (the `lgid_by_name` map). -/
abbrev NameMap := List (String × Int)

def nmGet : NameMap → String → Option Int
  | [], _ => none
  | p :: ps, s => if p.1 = s then some p.2 else nmGet ps s

def nmHas : NameMap → String → Bool
  | [], _ => false
  | p :: ps, s => decide (p.1 = s) || nmHas ps s

def nmUpd : NameMap → String → Int → NameMap
  | [], _, _ => []
  | p :: ps, s, i => (if p.1 = s then (s, i) else p) :: nmUpd ps s i

def nmSet (m : NameMap) (s : String) (i : Int) : NameMap :=
  if nmHas m s then nmUpd m s i else m ++ [(s, i)]

/-! ### Input tables -/

/-- The settings already extracted by `_get_setting` (`DAYS`, `TRUCK_CAP`,
`TOT_V`, `MAX_TRIPS`, `DEFAULT_LEAD` in the source; a missing parameter
raises before any simulation work starts, so the engine is embedded from
the point where all five values are available). -/
structure Settings where
  DAYS : Nat
  TRUCK_CAP : Q
  TOT_V : Nat
  MAX_TRIPS : Nat
  DEFAULT_LEAD : Q
deriving DecidableEq

/-- A cell referencing an LG either by integer id or by name
(`normalize_lg_ref` accepts both); `missing` is a NaN cell. -/
inductive LGRef
  | byId (i : Int)
  | byName (s : String)
  | missing
deriving DecidableEq

/-- A row of the LGs sheet.  `Initial_Allocation_tons` is 0 when the column
is absent (the source inserts an all-zero column); `Storage_Capacity_tons`
is `none` when that column is absent; `Initial_LG_Stock` is read with
`row.get(_, 0.0)`, so an absent column is 0. -/
structure LGRow where
  LG_ID : Int
  LG_Name : String
  Initial_Allocation_tons : Q
  Storage_Capacity_tons : Option Q
  Initial_LG_Stock : Q
deriving DecidableEq

/-- A row of the FPS sheet (`Lead_Time_days = none` models a NaN filled
with the default). -/
structure FPSRow where
  FPS_ID : Int
  Monthly_Demand_tons : Q
  Max_Capacity_tons : Q
  Linked_LG_ID : LGRef
  Lead_Time_days : Option Q
deriving DecidableEq

/-- A row of the Vehicles sheet.  `Capacity_tons = none` models an absent
capacity column (defaulted to `TRUCK_CAP`); `Mapped_LG_IDs = none` models
an absent mapping column (defaulted to the comma-join of all LG ids), and
otherwise holds the comma-separated tokens of the cell. -/
structure VehicleRow where
  Vehicle_ID : Int
  Capacity_tons : Option Q
  Mapped_LG_IDs : Option (List LGRef)
deriving DecidableEq

/-- The master workbook as far as `run_simulation` can see it:
`LG_Capacity = none` models a missing/unreadable sheet (the `except`
branch).  `LG_Daily_Req` is the optional per-depot-per-day requirement
sheet that the surrounding app documents as an accepted input; it is kept
in the model so that claims about it can be stated. -/
structure Workbook where
  LG_Capacity : Option (List (Int × Q))
  LG_Daily_Req : Option (List (Int × Nat × Q))
deriving DecidableEq

/-! ### Section 1 of the source: LG and FPS preparation -/

/-- `lgid_by_name`: dict from lowercased stripped name to id, later rows
overwriting earlier ones. -/
def buildNameMap (lgs : List LGRow) : NameMap :=
  lgs.foldl (fun m r => nmSet m (r.LG_Name.trim.toLower) r.LG_ID) []

/-- `normalize_lg_ref`: an int-like reference is accepted iff it is a known
LG id; otherwise the name map is consulted.  (A purely numeric string is
never also a name, so an unknown id resolves to `none`.) -/
def normalize_lg_ref (valid : List Int) (m : NameMap) : LGRef → Option Int
  | .missing => none
  | .byId i => if i ∈ valid then some i else none
  | .byName s => nmGet m (s.trim.toLower)

/-- Ascending insertion sort on `Int` (Python `sorted`). -/
def insInt (x : Int) : List Int → List Int
  | [] => [x]
  | y :: ys => if x ≤ y then x :: y :: ys else y :: insInt x ys

def sortInts : List Int → List Int
  | [] => []
  | x :: xs => insInt x (sortInts xs)

/-- `parse_lg_list`: resolve each token, drop failures, `sorted(set(...))`. -/
def parse_lg_list (valid : List Int) (m : NameMap) (toks : List LGRef) : List Int :=
  sortInts ((toks.filterMap (normalize_lg_ref valid m)).dedup)

/-- An FPS row after preparation: daily demand `Monthly/30`, reorder
threshold `daily * lead`, and the resolved LG id. -/
structure FPSRec where
  fid : Int
  daily : Q
  threshold : Q
  maxCap : Q
  lgid : Int
deriving DecidableEq

/-- Attach derived columns and the normalized LG id to every FPS row;
any row whose reference fails to resolve makes the whole run fail
(`ValueError` in the source). -/
def prepFPS (S : Settings) (valid : List Int) (m : NameMap) :
    List FPSRow → Except String (List FPSRec)
  | [] => .ok []
  | r :: rs =>
    match normalize_lg_ref valid m r.Linked_LG_ID with
    | none => .error "Some FPS rows could not map Linked_LG_ID to a valid LG_ID."
    | some lg =>
      match prepFPS S valid m rs with
      | .error e => .error e
      | .ok recs =>
        .ok (⟨r.FPS_ID, r.Monthly_Demand_tons / 30,
              (r.Monthly_Demand_tons / 30) * (r.Lead_Time_days.getD S.DEFAULT_LEAD),
              r.Max_Capacity_tons, lg⟩ :: recs)

/-! ### Section 2 of the source: vehicles -/

/-- A vehicle after preparation. -/
structure Veh where
  vid : Int
  cap : Q
  mapped : List Int
deriving DecidableEq

/-- The fallback fleet built when the Vehicles sheet is empty: ids
`1..TOT_V`, capacity `TRUCK_CAP`, every vehicle mapped to all LGs. -/
def fallbackFleet (S : Settings) (valid : List Int) : List Veh :=
  (List.range S.TOT_V).map (fun k => ⟨(k : Int) + 1, S.TRUCK_CAP, sortInts valid.dedup⟩)

/-- Parse one sheet row: missing capacity column defaults to `TRUCK_CAP`,
a missing mapping column defaults to the join of all sorted LG ids. -/
def prepVehRow (S : Settings) (valid : List Int) (m : NameMap) (r : VehicleRow) : Veh :=
  ⟨r.Vehicle_ID, r.Capacity_tons.getD S.TRUCK_CAP,
    parse_lg_list valid m
      (r.Mapped_LG_IDs.getD ((sortInts valid.dedup).map LGRef.byId))⟩

/-- Build the vehicle pool; a vehicle whose mapping list resolves to empty
makes the whole run fail (`ValueError` in the source). -/
def prepVehicles (S : Settings) (valid : List Int) (m : NameMap)
    (rows : List VehicleRow) : Except String (List Veh) :=
  let base :=
    match rows with
    | [] => fallbackFleet S valid
    | _ => rows.map (prepVehRow S valid m)
  if base.any (fun v => v.mapped.isEmpty) then
    .error "Some vehicles could not map any LGs from Mapped_LG_IDs."
  else .ok base

/-! ### Section 3 of the source: LG → FPS simulation -/

/-- One row of `dispatch_lg`. -/
structure LGDispatch where
  Day : Nat
  Vehicle_ID : Int
  LG_ID : Int
  FPS_ID : Int
  Quantity_tons : Q
deriving DecidableEq

/-- One row of `dispatch_cg`. -/
structure CGDispatch where
  Day : Nat
  Vehicle_ID : Int
  LG_ID : Int
  Quantity_tons : Q
deriving DecidableEq

/-- One row of `stock_levels` (`isLG = true` for Entity_Type "LG"). -/
structure SnapRow where
  Day : Nat
  isLG : Bool
  Entity_ID : Int
  Stock_Level_tons : Q
deriving DecidableEq

/-- `lg_stock`: dict keyed by LG id holding `Initial_Allocation_tons`. -/
def initLGStock (lgs : List LGRow) : AL :=
  lgs.foldl (fun al r => alSet al r.LG_ID r.Initial_Allocation_tons) []

/-- `fps_stock`: dict keyed by FPS id, all starting at 0. -/
def initFPSStock (fps : List FPSRec) : AL :=
  fps.foldl (fun al r => alSet al r.fid 0) []

/-- Step 3a: every FPS consumes its daily demand, floored at zero. -/
def consumeDay (fps : List FPSRec) (fS : AL) : AL :=
  fps.foldl (fun st r => alSet st r.fid (qmax 0 (alGet st r.fid - r.daily))) fS

/-- One element of the `needs` list: `(urgency, fid, lgid, need_qty)`. -/
structure Need where
  urgency : Q
  fid : Int
  lgid : Int
  qty : Q
deriving DecidableEq

/-- Step 3b: candidate needs, in FPS sheet order. -/
def computeNeeds (lgS fS : AL) : List FPSRec → List Need
  | [] => []
  | r :: rs =>
    let current := alGet fS r.fid
    let rest := computeNeeds lgS fS rs
    if current ≤ r.threshold then
      let need := qmin (r.maxCap - current) (alGet lgS r.lgid)
      if 0 < need then
        ⟨if 0 < r.daily then (r.threshold - current) / r.daily else 0,
          r.fid, r.lgid, need⟩ :: rest
      else rest
    else rest

/-- Stable insertion of a need into a descending-urgency list; an element
equal in urgency to later ones stays in front of them, which is exactly
the stable descending order of Python `list.sort(key, reverse=True)`. -/
def insertNeedDesc (x : Need) : List Need → List Need
  | [] => [x]
  | y :: ys => if y.urgency ≤ x.urgency then x :: y :: ys else y :: insertNeedDesc x ys

def sortNeedsDesc : List Need → List Need
  | [] => []
  | x :: xs => insertNeedDesc x (sortNeedsDesc xs)

/-- `is_shared`: mapped to more than one LG. -/
def isShared (v : Veh) : Bool := decide (1 < v.mapped.length)

/-- Rank of a boolean sort key (False < True). -/
def srank (b : Bool) : Nat := if b then 1 else 0

/-- Stable ascending insertion by a boolean key. -/
def insBoolAsc (key : α → Bool) (x : α) : List α → List α
  | [] => [x]
  | y :: ys =>
    if srank (key x) ≤ srank (key y) then x :: y :: ys else y :: insBoolAsc key x ys

def stableAscBy (key : α → Bool) : List α → List α
  | [] => []
  | x :: xs => insBoolAsc key x (stableAscBy key xs)

/-- `DataFrame.sort_values([key], ascending=False)` on one boolean column:
pandas computes an ascending argsort (stable for the small candidate
frames that arise here, where the underlying numpy sort is an insertion
sort) and then reverses the whole indexer. -/
def sort_values_desc (key : α → Bool) (l : List α) : List α :=
  (stableAscBy key l).reverse

/-- The state mutated by the step-3d dispatch loop: the two stock dicts,
the per-vehicle `Trips_Used` counters, and the rows emitted so far today. -/
structure P1State where
  lgS : AL
  fS : AL
  vehs : List (Veh × Nat)
  rows : List LGDispatch

/-- One iteration of the step-3d loop for a single need. -/
def dispatchOne (S : Settings) (day : Nat) (st : P1State) (n : Need) : P1State :=
  let cand := (st.vehs.filter (fun p => p.1.mapped.contains n.lgid)).filter
      (fun p => decide (p.2 < S.MAX_TRIPS))
  match sort_values_desc (fun p => isShared p.1) cand with
  | [] => st
  | chosen :: _ =>
    let vid := chosen.1.vid
    let cap := chosen.1.cap
    let qty := qmin cap (qmin n.qty (alGet st.lgS n.lgid))
    if qty ≤ 0 then st
    else
      { lgS := alSet st.lgS n.lgid (alGet st.lgS n.lgid - qty)
        fS := alSet st.fS n.fid (alGet st.fS n.fid + qty)
        vehs := st.vehs.map (fun p => if p.1.vid = vid then (p.1, p.2 + 1) else p)
        rows := st.rows ++ [⟨day, vid, n.lgid, n.fid, qty⟩] }

/-- The whole step-3d loop. -/
def dispatchAll (S : Settings) (day : Nat) : P1State → List Need → P1State
  | st, [] => st
  | st, n :: ns => dispatchAll S day (dispatchOne S day st n) ns

/-- Step 3e: end-of-day snapshots, LG entries first, in dict order. -/
def snapsOf (day : Nat) (lgS fS : AL) : List SnapRow :=
  lgS.map (fun p => ⟨day, true, p.1, p.2⟩) ++ fS.map (fun p => ⟨day, false, p.1, p.2⟩)

/-- Accumulated phase-1 state across days. -/
structure P1Acc where
  lgS : AL
  fS : AL
  rows : List LGDispatch
  snaps : List SnapRow

/-- One full simulated day of phase 1 (steps 3a–3e); `Trips_Used` is reset
to 0 at the start of every day (step 3c). -/
def p1Day (S : Settings) (fpsR : List FPSRec) (vehsBase : List Veh)
    (acc : P1Acc) (day : Nat) : P1Acc :=
  let fS1 := consumeDay fpsR acc.fS
  let needs := sortNeedsDesc (computeNeeds acc.lgS fS1 fpsR)
  let st := dispatchAll S day ⟨acc.lgS, fS1, vehsBase.map (fun v => (v, 0)), []⟩ needs
  ⟨st.lgS, st.fS, acc.rows ++ st.rows, acc.snaps ++ snapsOf day st.lgS st.fS⟩

/-- Phase-1 state after the first `d` days of `for day in range(1, DAYS+1)`. -/
def p1AfterDay (S : Settings) (fpsR : List FPSRec) (vehsBase : List Veh)
    (lgs : List LGRow) : Nat → P1Acc
  | 0 => ⟨initLGStock lgs, initFPSStock fpsR, [], []⟩
  | d + 1 => p1Day S fpsR vehsBase (p1AfterDay S fpsR vehsBase lgs d) (d + 1)

/-! ### Section 4 of the source: derived LG daily requirement -/

def sumQ : List Q → Q
  | [] => 0
  | x :: xs => x + sumQ xs

/-- `dispatch_lg.groupby(["LG_ID","Day"])["Quantity_tons"].sum()` read
through the pivot with `fill_value=0`; on an empty ledger this is the
all-zero requirement table of the fallback branch. -/
def derivedReq (rows : List LGDispatch) (lg : Int) (d : Nat) : Q :=
  sumQ ((rows.filter (fun r => decide (r.LG_ID = lg) && decide (r.Day = d))).map
    (fun r => r.Quantity_tons))

/-- `req_pivot.index`: the sorted distinct LG ids of the ledger, or all
known LG ids when the ledger is empty (the fallback all-zero frame). -/
def reqIndex (valid : List Int) (rows : List LGDispatch) : List Int :=
  match rows with
  | [] => sortInts valid.dedup
  | _ => sortInts ((rows.map (fun r => r.LG_ID)).dedup)

/-- Every day in `1..d` appears in the ledger. -/
def daysCovered (rows : List LGDispatch) : Nat → Bool
  | 0 => true
  | d + 1 => rows.any (fun r => decide (r.Day = d + 1)) && daysCovered rows d

/-- `req_pivot.at[lgid, day]` raises `KeyError` when column `day` is
absent, i.e. when the (nonempty) ledger has no dispatch at all on some
day of the horizon; this predicate is true exactly when all accesses of
the phase-5 loop succeed. -/
def reqColsOK (days : Nat) (rows : List LGDispatch) : Bool :=
  rows.isEmpty || daysCovered rows days

/-! ### Section 5 of the source: CG → LG pre-dispatch -/

/-- Depot capacity: the `LG_Capacity` sheet when it is readable with the
required columns, else the `Storage_Capacity_tons` column of the LGs
sheet, else a fatal error. -/
def resolveCapacity (wb : Workbook) (lgs : List LGRow) : Except String AL :=
  match wb.LG_Capacity with
  | some sheet => .ok (sheet.foldl (fun al p => alSet al p.1 p.2) [])
  | none =>
    if lgs.all (fun r => r.Storage_Capacity_tons.isSome) then
      .ok (lgs.foldl (fun al r => alSet al r.LG_ID (r.Storage_Capacity_tons.getD 0)) [])
    else .error "Provide LG_Capacity sheet or Storage_Capacity_tons in LGs."

/-- `lg_stock_cg`: dict keyed by LG id holding `Initial_LG_Stock` (0 when
the column is absent). -/
def initCGStock (lgs : List LGRow) : AL :=
  lgs.foldl (fun al r => alSet al r.LG_ID r.Initial_LG_Stock) []

/-- `free_room(lg_id)`. -/
def free_room (cap st : AL) (lg : Int) : Q := qmax 0 (alGet cap lg - alGet st lg)

/-- The inner `while trips_left > 0 and need_today > 1e-9` loop serving one
LG on one day; structural recursion on `trips_left`.  Vehicle ids rotate
as `TOT_V - trips_left + 1`. -/
def serveLG (S : Settings) (cap : AL) (day : Nat) (lg : Int) :
    Nat → Q → AL → AL × Nat × List CGDispatch
  | 0, _, st => (st, 0, [])
  | tl + 1, need, st =>
    if need ≤ eps then (st, tl + 1, [])
    else
      let vid : Int := (S.TOT_V : Int) - (tl + 1) + 1
      let qty := qmin S.TRUCK_CAP (qmin need (free_room cap st lg))
      if qty ≤ eps then (st, tl + 1, [])
      else
        let res := serveLG S cap day lg tl (need - qty)
          (alSet st lg (alGet st lg + qty))
        (res.1, res.2.1, ⟨day, vid, lg, qty⟩ :: res.2.2)

/-- The `for lgid in req_pivot.index` loop of one CG day, threading the
shared `trips_left` pool. -/
def cgServeList (S : Settings) (cap : AL) (req : Int → Nat → Q) (day : Nat) :
    List Int → Nat → AL → AL × Nat × List CGDispatch
  | [], tl, st => (st, tl, [])
  | lg :: rest, tl, st =>
    let need := qmax 0 (req lg day - alGet st lg)
    let r1 := serveLG S cap day lg tl need st
    let r2 := cgServeList S cap req day rest r1.2.1 r1.1
    (r2.1, r2.2.1, r1.2.2 ++ r2.2.2)

/-- CG state and ledger after the first `d` days of phase 5. -/
def cgAfterDay (S : Settings) (cap : AL) (req : Int → Nat → Q) (idx : List Int)
    (lgs : List LGRow) : Nat → AL × List CGDispatch
  | 0 => (initCGStock lgs, [])
  | d + 1 =>
    let prev := cgAfterDay S cap req idx lgs d
    let r := cgServeList S cap req (d + 1) idx S.TOT_V prev.1
    (r.1, prev.2 ++ r.2.2)

/-! ### The top-level `run_simulation` -/

def run_simulation (wb : Workbook) (S : Settings) (lgs : List LGRow)
    (fps : List FPSRow) (vehicles : List VehicleRow) :
    Except String (List CGDispatch × List LGDispatch × List SnapRow) :=
  let m := buildNameMap lgs
  let valid := lgs.map (fun r => r.LG_ID)
  match prepFPS S valid m fps with
  | .error e => .error e
  | .ok fpsR =>
    match prepVehicles S valid m vehicles with
    | .error e => .error e
    | .ok vehsBase =>
      let p1 := p1AfterDay S fpsR vehsBase lgs S.DAYS
      match resolveCapacity wb lgs with
      | .error e => .error e
      | .ok cap =>
        if reqColsOK S.DAYS p1.rows then
          let cg := (cgAfterDay S cap (derivedReq p1.rows) (reqIndex valid p1.rows)
            lgs S.DAYS).2
          .ok (cg, p1.rows, p1.snaps)
        else .error "KeyError: Day"

/-! ### Derived observations used by the stated properties -/

/-- Number of depot→outlet dispatch records attributed to vehicle `v` on
day `d` (the spec counts one "trip" per record). -/
def tripsLG (rows : List LGDispatch) (v : Int) (d : Nat) : Nat :=
  (rows.filter (fun r => decide (r.Vehicle_ID = v) && decide (r.Day = d))).length

/-- Number of central→depot dispatch records attributed to vehicle `v` on
day `d`. -/
def tripsCG (rows : List CGDispatch) (v : Int) (d : Nat) : Nat :=
  (rows.filter (fun r => decide (r.Vehicle_ID = v) && decide (r.Day = d))).length

/-- Number of depot→outlet records attributed to vehicle `v` (any day);
within a single day block this is what `Trips_Used` tracks. -/
def countV (rows : List LGDispatch) (v : Int) : Nat :=
  (rows.filter (fun r => decide (r.Vehicle_ID = v))).length

/-- Total quantity dispatched to depot `lg` on day `d` in the CG ledger. -/
def cgDayLGTotal (rows : List CGDispatch) (lg : Int) (d : Nat) : Q :=
  sumQ ((rows.filter (fun r => decide (r.Day = d) && decide (r.LG_ID = lg))).map
    (fun r => r.Quantity_tons))

/-- All values of a stock dict are nonnegative. -/
def alNonneg (al : AL) : Prop := ∀ p ∈ al, 0 ≤ p.2

/-- Modelled from the spec: the "directly supplied per-depot-per-day
requirement table" that §4.2/§6 say the CG→LG phase must also accept.  No
code under `simulation.py` reads such a table; this definition renders the
spec-side requirement source so that claims about it can be stated. -/
def specSuppliedReq (wb : Workbook) : Option (Int → Nat → Q) :=
  wb.LG_Daily_Req.map (fun sheet lg d =>
    sumQ ((sheet.filter (fun p => decide (p.1 = lg) && decide (p.2.1 = d))).map
      (fun p => p.2.2)))

/-! ### The UI call site (`app1.py`)

`app1.py` invokes `run_simulation(settings, lgs, fps, vehicles)` with four
positional arguments, while the function requires five positional
parameters `(master_workbook, settings, lgs, fps, vehicles)` and none has
a default.  Python binds positional arguments before the body executes;
a shortfall raises `TypeError` at the call site.  `bindPositional` models
that binding step. -/

def run_simulation_param_count : Nat := 5

def app1_run_call_arg_count : Nat := 4

def bindPositional (required provided : Nat) : Except String Unit :=
  if provided = required then .ok ()
  else .error "TypeError: run_simulation() positional arguments do not match"

/-- The UI button handler as written: bind the four supplied arguments
against the five required parameters, then (only if binding succeeded)
execute the simulation on the uploaded data. -/
def app1_trigger (wb : Workbook) (S : Settings) (lgs : List LGRow)
    (fps : List FPSRow) (veh : List VehicleRow) :
    Except String (List CGDispatch × List LGDispatch × List SnapRow) :=
  match bindPositional run_simulation_param_count app1_run_call_arg_count with
  | .error e => .error e
  | .ok _ => run_simulation wb S lgs fps veh

/-! ### Concrete inputs used as counterexamples and witnesses -/

/-- Input A: one LG with 15 t initial allocation, three outlets, one
3-trip vehicle of 5 t for phase 1, but a CG fleet of `TOT_V = 1` truck of
`TRUCK_CAP = 5` t — so the derived day-1 requirement (15 t) exceeds
`Vehicles_Total × Vehicle_Capacity_tons = 5` t. -/
def SA : Settings := ⟨1, 5, 1, 3, 1⟩

def lgsA : List LGRow := [⟨1, "a", 15, some 100, 0⟩]

def fpsA : List FPSRow :=
  [⟨101, 150, 5, .byId 1, some 1⟩, ⟨102, 150, 5, .byId 1, some 1⟩,
   ⟨103, 150, 5, .byId 1, some 1⟩]

def vehsA : List VehicleRow := [⟨1, some 5, some [.byId 1]⟩]

def wbA : Workbook := ⟨none, none⟩

def cgA : List CGDispatch := [⟨1, 1, 1, 5⟩]

def lgA : List LGDispatch :=
  [⟨1, 1, 1, 101, 5⟩, ⟨1, 1, 1, 102, 5⟩, ⟨1, 1, 1, 103, 5⟩]

def snapA : List SnapRow :=
  [⟨1, true, 1, 0⟩, ⟨1, false, 101, 5⟩, ⟨1, false, 102, 5⟩, ⟨1, false, 103, 5⟩]

/-- Input B: three days, requirement 5 t every day at LG 1,
`TOT_V = 2` CG trucks, one phase-1 vehicle, `MAX_TRIPS = 1`. -/
def SB : Settings := ⟨3, 5, 2, 1, 1⟩

def lgsB : List LGRow := [⟨1, "a", 15, some 100, 0⟩]

def fpsB : List FPSRow := [⟨101, 150, 5, .byId 1, some 1⟩]

def vehsB : List VehicleRow := [⟨1, some 5, some [.byId 1]⟩]

def wbB : Workbook := ⟨none, none⟩

def cgB : List CGDispatch := [⟨1, 1, 1, 5⟩]

def lgB : List LGDispatch :=
  [⟨1, 1, 1, 101, 5⟩, ⟨2, 1, 1, 101, 5⟩, ⟨3, 1, 1, 101, 5⟩]

def snapB : List SnapRow :=
  [⟨1, true, 1, 10⟩, ⟨1, false, 101, 5⟩, ⟨2, true, 1, 5⟩, ⟨2, false, 101, 5⟩,
   ⟨3, true, 1, 0⟩, ⟨3, false, 101, 5⟩]

def fpsRB : List FPSRec := [⟨101, 5, 5, 5, 1⟩]

def vehsBaseB : List Veh := [⟨1, 5, [1]⟩]

def capB : AL := [(1, 100)]

/-- Input C: an outlet with zero demand and an empty depot, so phase 1
dispatches nothing; the workbook carries a supplied `LG_Daily_Req` sheet
demanding 7 t at LG 1 on day 1. -/
def SC : Settings := ⟨1, 5, 1, 1, 1⟩

def lgsC : List LGRow := [⟨1, "a", 0, some 100, 0⟩]

def fpsC : List FPSRow := [⟨101, 0, 5, .byId 1, some 1⟩]

def vehsC : List VehicleRow := [⟨1, some 5, some [.byId 1]⟩]

def wbC : Workbook := ⟨none, some [(1, 1, 7)]⟩

def snapC : List SnapRow := [⟨1, true, 1, 0⟩, ⟨1, false, 101, 0⟩]

/-- Input D: two LGs, two vehicles both mapped to both LGs (both
"shared"), one candidate outlet at LG 1, so the two vehicles tie on the
`is_shared` sort key. -/
def SD : Settings := ⟨1, 5, 2, 1, 1⟩

def lgsD : List LGRow := [⟨1, "a", 10, some 100, 0⟩, ⟨2, "b", 0, some 100, 0⟩]

def fpsD : List FPSRow := [⟨101, 150, 5, .byId 1, some 1⟩]

def vehsD : List VehicleRow :=
  [⟨1, some 5, some [.byId 1, .byId 2]⟩, ⟨2, some 5, some [.byId 1, .byId 2]⟩]

def wbD : Workbook := ⟨none, none⟩

def cgD : List CGDispatch := [⟨1, 1, 1, 5⟩]

def lgD : List LGDispatch := [⟨1, 2, 1, 101, 5⟩]

def snapD : List SnapRow :=
  [⟨1, true, 1, 5⟩, ⟨1, true, 2, 0⟩, ⟨1, false, 101, 5⟩]

/-- Input E: vehicle 1 is mapped only to LG 1, vehicle 2 only to LG 2;
the single outlet hangs off LG 2, so the whole derived requirement is at
LG 2. -/
def SE : Settings := ⟨1, 5, 2, 1, 1⟩

def lgsE : List LGRow := [⟨1, "a", 0, some 100, 0⟩, ⟨2, "b", 10, some 100, 0⟩]

def fpsE : List FPSRow := [⟨101, 150, 5, .byId 2, some 1⟩]

def vehsE : List VehicleRow := [⟨1, some 5, some [.byId 1]⟩, ⟨2, some 5, some [.byId 2]⟩]

def wbE : Workbook := ⟨none, none⟩

def cgE : List CGDispatch := [⟨1, 1, 2, 5⟩]

def lgE : List LGDispatch := [⟨1, 2, 2, 101, 5⟩]

def snapE : List SnapRow :=
  [⟨1, true, 1, 0⟩, ⟨1, true, 2, 5⟩, ⟨1, false, 101, 5⟩]

def vehsBaseE : List Veh := [⟨1, 5, [1]⟩, ⟨2, 5, [2]⟩]

/-! ## Basic lemmas -/

theorem qmin_le_left (a b : Q) : qmin a b ≤ a := by
  unfold qmin; split_ifs with h <;> linarith

theorem qmin_le_right (a b : Q) : qmin a b ≤ b := by
  unfold qmin; split_ifs with h <;> linarith

theorem le_qmax_left (a b : Q) : a ≤ qmax a b := by
  unfold qmax; split_ifs with h <;> linarith

theorem le_qmax_right (a b : Q) : b ≤ qmax a b := by
  unfold qmax; split_ifs with h <;> linarith

theorem qmax_le {a b c : Q} (h1 : a ≤ c) (h2 : b ≤ c) : qmax a b ≤ c := by
  unfold qmax; split_ifs with h <;> assumption

theorem qmax_zero_nonneg (a : Q) : 0 ≤ qmax 0 a := le_qmax_left 0 a

theorem le_of_le_qmax_zero {a x : Q} (h : a ≤ qmax 0 x) (hpos : 0 < a) : a ≤ x := by
  unfold qmax at h; split_ifs at h with h0 <;> linarith

theorem eps_pos : 0 < eps := by norm_num [eps]

theorem alGet_nonneg {al : AL} (h : alNonneg al) (k : Int) : 0 ≤ alGet al k := by
  induction al with
  | nil => simp [alGet]
  | cons p ps ih =>
    simp only [alGet]
    split_ifs
    · exact h p (List.mem_cons_self p ps)
    · exact ih (fun q hq => h q (List.mem_cons_of_mem p hq))

theorem alNonneg_alUpd {al : AL} {k : Int} {v : Q} (h : alNonneg al) (hv : 0 ≤ v) :
    alNonneg (alUpd al k v) := by
  induction al with
  | nil => intro q hq; simp [alUpd] at hq
  | cons p ps ih =>
    intro q hq
    simp only [alUpd, List.mem_cons] at hq
    rcases hq with hq | hq
    · subst hq
      split_ifs with hpk
      · exact hv
      · exact h p (List.mem_cons_self p ps)
    · exact ih (fun r hr => h r (List.mem_cons_of_mem p hr)) q hq

theorem alNonneg_alSet {al : AL} {k : Int} {v : Q} (h : alNonneg al) (hv : 0 ≤ v) :
    alNonneg (alSet al k v) := by
  unfold alSet
  split_ifs with hh
  · exact alNonneg_alUpd h hv
  · intro q hq
    rcases List.mem_append.mp hq with hq | hq
    · exact h q hq
    · simp at hq; subst hq; exact hv

theorem alGet_cons (p : Int × Q) (ps : AL) (k : Int) :
    alGet (p :: ps) k = if p.1 = k then p.2 else alGet ps k := rfl

theorem alHas_cons (p : Int × Q) (ps : AL) (k : Int) :
    alHas (p :: ps) k = (decide (p.1 = k) || alHas ps k) := rfl

theorem alUpd_cons (p : Int × Q) (ps : AL) (k : Int) (v : Q) :
    alUpd (p :: ps) k v = (if p.1 = k then (k, v) else p) :: alUpd ps k v := rfl

theorem alGet_alUpd_ne {al : AL} {k j : Int} {v : Q} (h : j ≠ k) :
    alGet (alUpd al k v) j = alGet al j := by
  induction al with
  | nil => rfl
  | cons p ps ih =>
    rw [alUpd_cons]
    by_cases hpk : p.1 = k
    · rw [if_pos hpk, alGet_cons, alGet_cons,
        if_neg (show ¬((k, v).1 = j) by simpa using fun hc => h hc.symm),
        if_neg (show ¬(p.1 = j) by rw [hpk]; exact fun hc => h hc.symm)]
      exact ih
    · rw [if_neg hpk, alGet_cons, alGet_cons]
      by_cases hpj : p.1 = j
      · rw [if_pos hpj, if_pos hpj]
      · rw [if_neg hpj, if_neg hpj]; exact ih

theorem alGet_append_single_ne {al : AL} {k j : Int} {v : Q} (h : j ≠ k) :
    alGet (al ++ [(k, v)]) j = alGet al j := by
  induction al with
  | nil =>
    rw [List.nil_append, alGet_cons,
      if_neg (show ¬((k, v).1 = j) by simpa using fun hc => h hc.symm)]
  | cons p ps ih =>
    rw [List.cons_append, alGet_cons, alGet_cons]
    by_cases hpj : p.1 = j
    · rw [if_pos hpj, if_pos hpj]
    · rw [if_neg hpj, if_neg hpj]; exact ih

theorem alGet_alSet_ne {al : AL} {k j : Int} {v : Q} (h : j ≠ k) :
    alGet (alSet al k v) j = alGet al j := by
  unfold alSet
  split_ifs with hh
  · exact alGet_alUpd_ne h
  · exact alGet_append_single_ne h

theorem alGet_alUpd_self {al : AL} {k : Int} {v : Q} (hh : alHas al k = true) :
    alGet (alUpd al k v) k = v := by
  induction al with
  | nil => simp [alHas] at hh
  | cons p ps ih =>
    rw [alUpd_cons]
    by_cases hpk : p.1 = k
    · rw [if_pos hpk, alGet_cons, if_pos (show (k, v).1 = k by simp)]
    · rw [if_neg hpk, alGet_cons, if_neg hpk]
      rw [alHas_cons] at hh
      exact ih (by simpa [hpk] using hh)

theorem alGet_append_single_self {al : AL} {k : Int} {v : Q}
    (hh : alHas al k = false) : alGet (al ++ [(k, v)]) k = v := by
  induction al with
  | nil => rw [List.nil_append, alGet_cons, if_pos (show (k, v).1 = k by simp)]
  | cons p ps ih =>
    rw [alHas_cons] at hh
    simp only [Bool.or_eq_false_iff, decide_eq_false_iff_not] at hh
    rw [List.cons_append, alGet_cons, if_neg hh.1]
    exact ih (hh.2)

theorem alGet_alSet_self {al : AL} {k : Int} {v : Q} :
    alGet (alSet al k v) k = v := by
  unfold alSet
  split_ifs with hh
  · exact alGet_alUpd_self hh
  · exact alGet_append_single_self (Bool.not_eq_true _ ▸ hh)

/-! ## Sorting lemmas -/

theorem insInt_perm (x : Int) (l : List Int) : (insInt x l).Perm (x :: l) := by
  induction l with
  | nil => simp [insInt]
  | cons y ys ih =>
    simp only [insInt]
    split_ifs with h
    · exact List.Perm.refl _
    · exact ((ih.cons y).trans (List.Perm.swap x y ys))

theorem sortInts_perm (l : List Int) : (sortInts l).Perm l := by
  induction l with
  | nil => simp [sortInts]
  | cons x xs ih => exact (insInt_perm x (sortInts xs)).trans (ih.cons x)

theorem sortInts_nodup {l : List Int} (h : l.Nodup) : (sortInts l).Nodup :=
  (sortInts_perm l).nodup_iff.mpr h

theorem insertNeedDesc_perm (x : Need) (l : List Need) :
    (insertNeedDesc x l).Perm (x :: l) := by
  induction l with
  | nil => simp [insertNeedDesc]
  | cons y ys ih =>
    simp only [insertNeedDesc]
    split_ifs with h
    · exact List.Perm.refl _
    · exact ((ih.cons y).trans (List.Perm.swap x y ys))

theorem sortNeedsDesc_perm (l : List Need) : (sortNeedsDesc l).Perm l := by
  induction l with
  | nil => simp [sortNeedsDesc]
  | cons x xs ih => exact (insertNeedDesc_perm x (sortNeedsDesc xs)).trans (ih.cons x)

theorem insertNeedDesc_sorted {x : Need} {l : List Need}
    (h : l.Pairwise (fun a b => b.urgency ≤ a.urgency)) :
    (insertNeedDesc x l).Pairwise (fun a b => b.urgency ≤ a.urgency) := by
  induction l with
  | nil => exact List.pairwise_singleton _ x
  | cons y ys ih =>
    simp only [insertNeedDesc]
    rcases List.pairwise_cons.mp h with ⟨hy, hys⟩
    split_ifs with hle
    · refine List.pairwise_cons.mpr ⟨?_, h⟩
      intro b hb
      rcases List.mem_cons.mp hb with hb | hb
      · exact hb ▸ hle
      · exact le_trans (hy b hb) hle
    · refine List.pairwise_cons.mpr ⟨?_, ih hys⟩
      intro b hb
      rcases List.mem_cons.mp ((insertNeedDesc_perm x ys).mem_iff.mp hb) with hb | hb
      · exact hb ▸ le_of_not_le hle
      · exact hy b hb

theorem sortNeedsDesc_sorted (l : List Need) :
    (sortNeedsDesc l).Pairwise (fun a b => b.urgency ≤ a.urgency) := by
  induction l with
  | nil => exact List.Pairwise.nil
  | cons x xs ih => exact insertNeedDesc_sorted ih

theorem insBoolAsc_perm (key : α → Bool) (x : α) (l : List α) :
    (insBoolAsc key x l).Perm (x :: l) := by
  induction l with
  | nil => simp [insBoolAsc]
  | cons y ys ih =>
    simp only [insBoolAsc]
    split_ifs with h
    · exact List.Perm.refl _
    · exact ((ih.cons y).trans (List.Perm.swap x y ys))

theorem stableAscBy_perm (key : α → Bool) (l : List α) :
    (stableAscBy key l).Perm l := by
  induction l with
  | nil => simp [stableAscBy]
  | cons x xs ih => exact (insBoolAsc_perm key x (stableAscBy key xs)).trans (ih.cons x)

theorem mem_of_mem_sort_values_desc {key : α → Bool} {l : List α} {a : α}
    (h : a ∈ sort_values_desc key l) : a ∈ l := by
  unfold sort_values_desc at h
  exact (stableAscBy_perm key l).mem_iff.mp (List.mem_reverse.mp h)

/-! ## Evaluation of the concrete inputs -/

theorem runA_eval : run_simulation wbA SA lgsA fpsA vehsA = .ok (cgA, lgA, snapA) := by
  norm_num [run_simulation, SA, lgsA, fpsA, vehsA, wbA, cgA, lgA, snapA,
    prepFPS, prepVehicles, prepVehRow, normalize_lg_ref, parse_lg_list, sortInts, insInt,
    List.dedup, List.filterMap, p1AfterDay, p1Day, consumeDay, computeNeeds, sortNeedsDesc,
    insertNeedDesc, dispatchAll, dispatchOne, sort_values_desc, stableAscBy, insBoolAsc,
    srank, isShared, snapsOf, initLGStock, initFPSStock, alSet, alGet, alHas, alUpd,
    qmin, qmax, reqColsOK, daysCovered, resolveCapacity, reqIndex, derivedReq, sumQ, cgAfterDay,
    cgServeList, serveLG, free_room, initCGStock, eps, List.filter, List.foldl]

theorem runB_eval : run_simulation wbB SB lgsB fpsB vehsB = .ok (cgB, lgB, snapB) := by
  norm_num [run_simulation, SB, lgsB, fpsB, vehsB, wbB, cgB, lgB, snapB,
    prepFPS, prepVehicles, prepVehRow, normalize_lg_ref, parse_lg_list, sortInts, insInt,
    List.dedup, List.filterMap, p1AfterDay, p1Day, consumeDay, computeNeeds, sortNeedsDesc,
    insertNeedDesc, dispatchAll, dispatchOne, sort_values_desc, stableAscBy, insBoolAsc,
    srank, isShared, snapsOf, initLGStock, initFPSStock, alSet, alGet, alHas, alUpd,
    qmin, qmax, reqColsOK, daysCovered, resolveCapacity, reqIndex, derivedReq, sumQ, cgAfterDay,
    cgServeList, serveLG, free_room, initCGStock, eps, List.filter, List.foldl]

theorem runC_eval : run_simulation wbC SC lgsC fpsC vehsC = .ok ([], [], snapC) := by
  norm_num [run_simulation, SC, lgsC, fpsC, vehsC, wbC, snapC,
    prepFPS, prepVehicles, prepVehRow, normalize_lg_ref, parse_lg_list, sortInts, insInt,
    List.dedup, List.filterMap, p1AfterDay, p1Day, consumeDay, computeNeeds, sortNeedsDesc,
    insertNeedDesc, dispatchAll, dispatchOne, sort_values_desc, stableAscBy, insBoolAsc,
    srank, isShared, snapsOf, initLGStock, initFPSStock, alSet, alGet, alHas, alUpd,
    qmin, qmax, reqColsOK, daysCovered, resolveCapacity, reqIndex, derivedReq, sumQ, cgAfterDay,
    cgServeList, serveLG, free_room, initCGStock, eps, List.filter, List.foldl]

theorem runD_eval : run_simulation wbD SD lgsD fpsD vehsD = .ok (cgD, lgD, snapD) := by
  norm_num [run_simulation, SD, lgsD, fpsD, vehsD, wbD, cgD, lgD, snapD,
    prepFPS, prepVehicles, prepVehRow, normalize_lg_ref, parse_lg_list, sortInts, insInt,
    List.dedup, List.filterMap, p1AfterDay, p1Day, consumeDay, computeNeeds, sortNeedsDesc,
    insertNeedDesc, dispatchAll, dispatchOne, sort_values_desc, stableAscBy, insBoolAsc,
    srank, isShared, snapsOf, initLGStock, initFPSStock, alSet, alGet, alHas, alUpd,
    qmin, qmax, reqColsOK, daysCovered, resolveCapacity, reqIndex, derivedReq, sumQ, cgAfterDay,
    cgServeList, serveLG, free_room, initCGStock, eps, List.filter, List.foldl]

theorem runE_eval : run_simulation wbE SE lgsE fpsE vehsE = .ok (cgE, lgE, snapE) := by
  norm_num [run_simulation, SE, lgsE, fpsE, vehsE, wbE, cgE, lgE, snapE,
    prepFPS, prepVehicles, prepVehRow, normalize_lg_ref, parse_lg_list, sortInts, insInt,
    List.dedup, List.filterMap, p1AfterDay, p1Day, consumeDay, computeNeeds, sortNeedsDesc,
    insertNeedDesc, dispatchAll, dispatchOne, sort_values_desc, stableAscBy, insBoolAsc,
    srank, isShared, snapsOf, initLGStock, initFPSStock, alSet, alGet, alHas, alUpd,
    qmin, qmax, reqColsOK, daysCovered, resolveCapacity, reqIndex, derivedReq, sumQ, cgAfterDay,
    cgServeList, serveLG, free_room, initCGStock, eps, List.filter, List.foldl]

theorem prepFPSB_eval :
    prepFPS SB (lgsB.map (fun r => r.LG_ID)) (buildNameMap lgsB) fpsB = .ok fpsRB := by
  norm_num [prepFPS, SB, lgsB, fpsB, fpsRB, normalize_lg_ref]

theorem prepVehsB_eval :
    prepVehicles SB (lgsB.map (fun r => r.LG_ID)) (buildNameMap lgsB) vehsB =
      .ok vehsBaseB := by
  norm_num [prepVehicles, prepVehRow, SB, lgsB, vehsB, vehsBaseB, parse_lg_list,
    normalize_lg_ref, sortInts, insInt, List.dedup, List.filterMap]

theorem capB_eval : resolveCapacity wbB lgsB = .ok capB := by
  norm_num [resolveCapacity, wbB, lgsB, capB, alSet, alHas, alUpd]

theorem prepVehsE_eval :
    prepVehicles SE (lgsE.map (fun r => r.LG_ID)) (buildNameMap lgsE) vehsE =
      .ok vehsBaseE := by
  norm_num [prepVehicles, prepVehRow, SE, lgsE, vehsE, vehsBaseE, parse_lg_list,
    normalize_lg_ref, sortInts, insInt, List.dedup, List.filterMap]

/-! ## Inversion of a successful run -/

theorem run_ok_elim {wb : Workbook} {S : Settings} {lgs : List LGRow}
    {fps : List FPSRow} {veh : List VehicleRow}
    {cg : List CGDispatch} {lgR : List LGDispatch} {sn : List SnapRow}
    {fpsR : List FPSRec} {vehsBase : List Veh} {cap : AL}
    (hf : prepFPS S (lgs.map (fun r => r.LG_ID)) (buildNameMap lgs) fps = .ok fpsR)
    (hv : prepVehicles S (lgs.map (fun r => r.LG_ID)) (buildNameMap lgs) veh = .ok vehsBase)
    (hc : resolveCapacity wb lgs = .ok cap)
    (h : run_simulation wb S lgs fps veh = .ok (cg, lgR, sn)) :
    lgR = (p1AfterDay S fpsR vehsBase lgs S.DAYS).rows ∧
    sn = (p1AfterDay S fpsR vehsBase lgs S.DAYS).snaps ∧
    cg = (cgAfterDay S cap (derivedReq (p1AfterDay S fpsR vehsBase lgs S.DAYS).rows)
      (reqIndex (lgs.map (fun r => r.LG_ID)) (p1AfterDay S fpsR vehsBase lgs S.DAYS).rows)
      lgs S.DAYS).2 := by
  simp only [run_simulation, hf, hv, hc] at h
  split_ifs at h with hq
  simp only [Except.ok.injEq, Prod.mk.injEq] at h
  exact ⟨h.2.1.symm, h.2.2.symm, h.1.symm⟩

theorem run_ok_inv {wb : Workbook} {S : Settings} {lgs : List LGRow}
    {fps : List FPSRow} {veh : List VehicleRow}
    {cg : List CGDispatch} {lgR : List LGDispatch} {sn : List SnapRow}
    (h : run_simulation wb S lgs fps veh = .ok (cg, lgR, sn)) :
    ∃ fpsR vehsBase cap,
      prepFPS S (lgs.map (fun r => r.LG_ID)) (buildNameMap lgs) fps = .ok fpsR ∧
      prepVehicles S (lgs.map (fun r => r.LG_ID)) (buildNameMap lgs) veh = .ok vehsBase ∧
      resolveCapacity wb lgs = .ok cap ∧
      lgR = (p1AfterDay S fpsR vehsBase lgs S.DAYS).rows ∧
      sn = (p1AfterDay S fpsR vehsBase lgs S.DAYS).snaps ∧
      cg = (cgAfterDay S cap (derivedReq (p1AfterDay S fpsR vehsBase lgs S.DAYS).rows)
        (reqIndex (lgs.map (fun r => r.LG_ID)) (p1AfterDay S fpsR vehsBase lgs S.DAYS).rows)
        lgs S.DAYS).2 := by
  cases hf : prepFPS S (lgs.map (fun r => r.LG_ID)) (buildNameMap lgs) fps with
  | error e => simp only [run_simulation, hf] at h; exact Except.noConfusion h
  | ok fpsR =>
    cases hv : prepVehicles S (lgs.map (fun r => r.LG_ID)) (buildNameMap lgs) veh with
    | error e => simp only [run_simulation, hf, hv] at h; exact Except.noConfusion h
    | ok vehsBase =>
      cases hc : resolveCapacity wb lgs with
      | error e => simp only [run_simulation, hf, hv, hc] at h; exact Except.noConfusion h
      | ok cap =>
        exact ⟨fpsR, vehsBase, cap, rfl, rfl, rfl, run_ok_elim hf hv hc h⟩

/-! ## CG ledger bounds (claims about phase 5) -/

theorem serveLG_len (S : Settings) (cap : AL) (day : Nat) (lg : Int) :
    ∀ (tl : Nat) (need : Q) (st : AL),
      (serveLG S cap day lg tl need st).2.2.length +
        (serveLG S cap day lg tl need st).2.1 ≤ tl := by
  intro tl
  induction tl with
  | zero => intro need st; simp [serveLG]
  | succ tl ih =>
    intro need st
    simp only [serveLG]
    split_ifs with h1 h2
    · simp
    · simp
    · have := ih (need - qmin S.TRUCK_CAP (qmin need (free_room cap st lg)))
        (alSet st lg (alGet st lg + qmin S.TRUCK_CAP (qmin need (free_room cap st lg))))
      simp only [List.length_cons]
      omega

theorem cgServeList_len (S : Settings) (cap : AL) (req : Int → Nat → Q) (day : Nat) :
    ∀ (lst : List Int) (tl : Nat) (st : AL),
      (cgServeList S cap req day lst tl st).2.2.length +
        (cgServeList S cap req day lst tl st).2.1 ≤ tl := by
  intro lst
  induction lst with
  | nil => intro tl st; simp [cgServeList]
  | cons lg rest ih =>
    intro tl st
    simp only [cgServeList, List.length_append]
    have h1 := serveLG_len S cap day lg tl (qmax 0 (req lg day - alGet st lg)) st
    have h2 := ih (serveLG S cap day lg tl (qmax 0 (req lg day - alGet st lg)) st).2.1
      (serveLG S cap day lg tl (qmax 0 (req lg day - alGet st lg)) st).1
    omega

theorem serveLG_mem (S : Settings) (cap : AL) (day : Nat) (lg : Int) :
    ∀ (tl : Nat) (need : Q) (st : AL),
      ∀ rec ∈ (serveLG S cap day lg tl need st).2.2, rec.Day = day ∧ rec.LG_ID = lg := by
  intro tl
  induction tl with
  | zero => intro need st rec hrec; simp [serveLG] at hrec
  | succ tl ih =>
    intro need st rec hrec
    simp only [serveLG] at hrec
    split_ifs at hrec with h1 h2
    · simp at hrec
    · simp at hrec
    · rcases List.mem_cons.mp hrec with hrec | hrec
      · subst hrec; exact ⟨rfl, rfl⟩
      · exact ih _ _ rec hrec

theorem cgServeList_mem (S : Settings) (cap : AL) (req : Int → Nat → Q) (day : Nat) :
    ∀ (lst : List Int) (tl : Nat) (st : AL),
      ∀ rec ∈ (cgServeList S cap req day lst tl st).2.2,
        rec.Day = day ∧ rec.LG_ID ∈ lst := by
  intro lst
  induction lst with
  | nil => intro tl st rec hrec; simp [cgServeList] at hrec
  | cons lg rest ih =>
    intro tl st rec hrec
    simp only [cgServeList] at hrec
    rcases List.mem_append.mp hrec with hrec | hrec
    · obtain ⟨hd, hlg⟩ := serveLG_mem S cap day lg _ _ _ rec hrec
      exact ⟨hd, hlg ▸ List.mem_cons_self _ _⟩
    · obtain ⟨hd, hlg⟩ := ih _ _ rec hrec
      exact ⟨hd, List.mem_cons_of_mem _ hlg⟩

theorem cgAfterDay_mem (S : Settings) (cap : AL) (req : Int → Nat → Q) (idx : List Int)
    (lgs : List LGRow) :
    ∀ (n : Nat), ∀ rec ∈ (cgAfterDay S cap req idx lgs n).2,
      1 ≤ rec.Day ∧ rec.Day ≤ n ∧ rec.LG_ID ∈ idx := by
  intro n
  induction n with
  | zero => intro rec hrec; simp [cgAfterDay] at hrec
  | succ n ih =>
    intro rec hrec
    simp only [cgAfterDay] at hrec
    rcases List.mem_append.mp hrec with hrec | hrec
    · obtain ⟨h1, h2, h3⟩ := ih rec hrec
      exact ⟨h1, Nat.le_succ_of_le h2, h3⟩
    · obtain ⟨hd, hlg⟩ := cgServeList_mem S cap req (n + 1) idx S.TOT_V _ rec hrec
      exact ⟨by omega, by omega, hlg⟩

theorem cgAfterDay_day_filter_len (S : Settings) (cap : AL) (req : Int → Nat → Q)
    (idx : List Int) (lgs : List LGRow) :
    ∀ (n d : Nat),
      ((cgAfterDay S cap req idx lgs n).2.filter (fun r => decide (r.Day = d))).length ≤
        S.TOT_V := by
  intro n
  induction n with
  | zero => intro d; simp [cgAfterDay]
  | succ n ih =>
    intro d
    simp only [cgAfterDay, List.filter_append, List.length_append]
    by_cases hd : d = n + 1
    · have h1 : ((cgAfterDay S cap req idx lgs n).2.filter
          (fun r => decide (r.Day = d))) = [] := by
        refine List.filter_eq_nil_iff.mpr ?_
        intro rec hrec hdec
        obtain ⟨_, h2, _⟩ := cgAfterDay_mem S cap req idx lgs n rec hrec
        simp only [decide_eq_true_eq] at hdec
        omega
      rw [h1]
      have h3 := List.length_filter_le (fun r => decide (r.Day = d))
        (cgServeList S cap req (n + 1) idx S.TOT_V (cgAfterDay S cap req idx lgs n).1).2.2
      have h4 := cgServeList_len S cap req (n + 1) idx S.TOT_V
        (cgAfterDay S cap req idx lgs n).1
      simp only [List.length_nil]
      omega
    · have h2 : ((cgServeList S cap req (n + 1) idx S.TOT_V
          (cgAfterDay S cap req idx lgs n).1).2.2.filter
            (fun r => decide (r.Day = d))) = [] := by
        refine List.filter_eq_nil_iff.mpr ?_
        intro rec hrec hdec
        obtain ⟨h3, _⟩ := cgServeList_mem S cap req (n + 1) idx S.TOT_V _ rec hrec
        simp only [decide_eq_true_eq] at hdec
        omega
      rw [h2]
      simpa using ih d

/-!
## Claim C1

The spec claims that an input whose depot requirement cannot be met by the
CG fleet makes `run_simulation` fail fatally.  The code has no feasibility
search at all (the source even notes that pre-stocking is "skipped"): the
CG loop just stops when `trips_left` hits 0 and the run returns normally.
Input A has a day-1 derived requirement of 15 t against a CG fleet bound
`Vehicles_Total × Vehicle_Capacity_tons = 5` t, yet the run returns `.ok`
with a ledger delivering only 5 t.  The amended statement proved below:
a successful run emits at most `TOT_V` central→depot records per day, and
never signals infeasibility.
-/

/-- C1 (counterexample): on input A the day-1 derived requirement is 15,
the fleet day capacity is `1 × 5 = 5`, and `run_simulation` returns a
normal result whose central→depot ledger delivers only 5 t on day 1 —
it under-delivers instead of failing fatally. -/
theorem C1_counterexample :
    run_simulation wbA SA lgsA fpsA vehsA = .ok (cgA, lgA, snapA) ∧
    derivedReq lgA 1 1 = 15 ∧
    (SA.TOT_V : Q) * SA.TRUCK_CAP = 5 ∧
    cgDayLGTotal cgA 1 1 = 5 := by
  refine ⟨runA_eval, ?_, ?_, ?_⟩
  · norm_num [derivedReq, lgA, sumQ]
  · norm_num [SA]
  · norm_num [cgDayLGTotal, cgA, sumQ]

/-- C1 (amended): `run_simulation` has no infeasibility failure; whenever
it returns successfully, its central→depot ledger contains at most
`Vehicles_Total` records on any day, so a daily requirement beyond the
fleet is silently under-delivered rather than surfaced as an error. -/
theorem C1_theorem {wb : Workbook} {S : Settings} {lgs : List LGRow}
    {fps : List FPSRow} {veh : List VehicleRow} {cg : List CGDispatch}
    {lgR : List LGDispatch} {sn : List SnapRow}
    (h : run_simulation wb S lgs fps veh = .ok (cg, lgR, sn)) (d : Nat) :
    (cg.filter (fun r => decide (r.Day = d))).length ≤ S.TOT_V := by
  obtain ⟨fpsR, vehsBase, cap, hf, hv, hc, hlg, hsn, hcg⟩ := run_ok_inv h
  rw [hcg]
  exact cgAfterDay_day_filter_len S cap _ _ lgs S.DAYS d

/-- Witness for C1: the amended bound applied to input A on day 1. -/
theorem C1_witness : (cgA.filter (fun r => decide (r.Day = 1))).length ≤ SA.TOT_V :=
  C1_theorem runA_eval 1

/-!
## Claim C2

The spec claims that leftover trips are distributed round-robin among
depots with positive future unmet need.  The source explicitly skips this
step ("Optional: ... Skipped here"), so on every day the CG engine serves
at most the current day's shortfall and then idles.
-/

theorem sumQ_append (a b : List Q) : sumQ (a ++ b) = sumQ a + sumQ b := by
  induction a with
  | nil => simp [sumQ]
  | cons x xs ih => simp [sumQ, ih]; ring

theorem serveLG_sum (S : Settings) (cap : AL) (day : Nat) (lg : Int) :
    ∀ (tl : Nat) (need : Q) (st : AL), 0 ≤ need →
      sumQ ((serveLG S cap day lg tl need st).2.2.map (fun r => r.Quantity_tons)) ≤
        need := by
  intro tl
  induction tl with
  | zero => intro need st h; simpa [serveLG, sumQ] using h
  | succ tl ih =>
    intro need st h
    simp only [serveLG]
    split_ifs with h1 h2
    · simpa [sumQ] using h
    · simpa [sumQ] using h
    · simp only [List.map_cons, sumQ]
      have hq_le : qmin S.TRUCK_CAP (qmin need (free_room cap st lg)) ≤ need :=
        le_trans (qmin_le_right _ _) (qmin_le_left _ _)
      have hrec := ih (need - qmin S.TRUCK_CAP (qmin need (free_room cap st lg)))
        (alSet st lg (alGet st lg + qmin S.TRUCK_CAP (qmin need (free_room cap st lg))))
        (by linarith)
      linarith

theorem serveLG_stock_other (S : Settings) (cap : AL) (day : Nat) (lg : Int) :
    ∀ (tl : Nat) (need : Q) (st : AL) (j : Int), j ≠ lg →
      alGet (serveLG S cap day lg tl need st).1 j = alGet st j := by
  intro tl
  induction tl with
  | zero => intro need st j hj; simp [serveLG]
  | succ tl ih =>
    intro need st j hj
    simp only [serveLG]
    split_ifs with h1 h2
    · rfl
    · rfl
    · rw [ih _ _ j hj, alGet_alSet_ne hj]

theorem cgServeList_stock_other (S : Settings) (cap : AL) (req : Int → Nat → Q)
    (day : Nat) :
    ∀ (lst : List Int) (tl : Nat) (st : AL) (j : Int), j ∉ lst →
      alGet (cgServeList S cap req day lst tl st).1 j = alGet st j := by
  intro lst
  induction lst with
  | nil => intro tl st j hj; rfl
  | cons l rest ih =>
    intro tl st j hj
    simp only [cgServeList]
    rw [ih _ _ j (fun hm => hj (List.mem_cons_of_mem _ hm)),
      serveLG_stock_other S cap day l _ _ _ j (fun he => hj (he ▸ List.mem_cons_self _ _))]

theorem cgServeList_sum_lg (S : Settings) (cap : AL) (req : Int → Nat → Q) (day : Nat) :
    ∀ (lst : List Int) (tl : Nat) (st : AL) (lg : Int), lst.Nodup →
      sumQ (((cgServeList S cap req day lst tl st).2.2.filter
        (fun r => decide (r.LG_ID = lg))).map (fun r => r.Quantity_tons)) ≤
      qmax 0 (req lg day - alGet st lg) := by
  intro lst
  induction lst with
  | nil => intro tl st lg _; simpa [cgServeList, sumQ] using qmax_zero_nonneg _
  | cons l rest ih =>
    intro tl st lg hnd
    simp only [cgServeList, List.filter_append, List.map_append, sumQ_append]
    by_cases hl : l = lg
    · subst hl
      have hall : ((serveLG S cap day l tl (qmax 0 (req l day - alGet st l)) st).2.2.filter
          (fun r => decide (r.LG_ID = l))) =
          (serveLG S cap day l tl (qmax 0 (req l day - alGet st l)) st).2.2 :=
        List.filter_eq_self.mpr (fun rec hrec => by
          simp [(serveLG_mem S cap day l tl _ st rec hrec).2])
      have hnil : ((cgServeList S cap req day rest
          (serveLG S cap day l tl (qmax 0 (req l day - alGet st l)) st).2.1
          (serveLG S cap day l tl (qmax 0 (req l day - alGet st l)) st).1).2.2.filter
          (fun r => decide (r.LG_ID = l))) = [] :=
        List.filter_eq_nil_iff.mpr (fun rec hrec hdec => by
          have hm := (cgServeList_mem S cap req day rest _ _ rec hrec).2
          simp only [decide_eq_true_eq] at hdec
          exact (List.nodup_cons.mp hnd).1 (hdec ▸ hm))
      rw [hall, hnil]
      have hs := serveLG_sum S cap day l tl (qmax 0 (req l day - alGet st l)) st
        (qmax_zero_nonneg _)
      simp only [List.map_nil, sumQ]
      linarith
    · have hnil : ((serveLG S cap day l tl (qmax 0 (req l day - alGet st l)) st).2.2.filter
          (fun r => decide (r.LG_ID = lg))) = [] :=
        List.filter_eq_nil_iff.mpr (fun rec hrec hdec => by
          have hm := (serveLG_mem S cap day l tl _ st rec hrec).2
          simp only [decide_eq_true_eq] at hdec
          exact hl (by rw [← hm]; exact hdec))
      rw [hnil]
      have hst : alGet (serveLG S cap day l tl (qmax 0 (req l day - alGet st l)) st).1 lg =
          alGet st lg :=
        serveLG_stock_other S cap day l tl _ st lg (fun he => hl he.symm)
      have hih := ih (serveLG S cap day l tl (qmax 0 (req l day - alGet st l)) st).2.1
        (serveLG S cap day l tl (qmax 0 (req l day - alGet st l)) st).1 lg
        (List.nodup_cons.mp hnd).2
      rw [hst] at hih
      simp only [List.map_nil, sumQ]
      linarith

theorem reqIndex_nodup (valid : List Int) (rows : List LGDispatch) :
    (reqIndex valid rows).Nodup := by
  unfold reqIndex
  match rows with
  | [] => exact sortInts_nodup (List.nodup_dedup valid)
  | r :: rs => exact sortInts_nodup (List.nodup_dedup _)

theorem cgAfterDay_day_lg_sum (S : Settings) (cap : AL) (req : Int → Nat → Q)
    (idx : List Int) (lgs : List LGRow) (hnd : idx.Nodup) :
    ∀ (n d : Nat) (lg : Int),
      cgDayLGTotal (cgAfterDay S cap req idx lgs n).2 lg (d + 1) ≤
        qmax 0 (req lg (d + 1) - alGet (cgAfterDay S cap req idx lgs d).1 lg) := by
  intro n
  induction n with
  | zero =>
    intro d lg
    simpa [cgAfterDay, cgDayLGTotal, sumQ] using qmax_zero_nonneg _
  | succ n ih =>
    intro d lg
    simp only [cgDayLGTotal, cgAfterDay, List.filter_append, List.map_append,
      sumQ_append] at *
    by_cases hd : d = n
    · subst hd
      have hprev : ((cgAfterDay S cap req idx lgs d).2.filter
          (fun r => decide (r.Day = d + 1) && decide (r.LG_ID = lg))) = [] :=
        List.filter_eq_nil_iff.mpr (fun rec hrec hdec => by
          obtain ⟨_, h2, _⟩ := cgAfterDay_mem S cap req idx lgs d rec hrec
          simp only [Bool.and_eq_true, decide_eq_true_eq] at hdec
          omega)
      rw [hprev]
      have hcongr : ((cgServeList S cap req (d + 1) idx S.TOT_V
          (cgAfterDay S cap req idx lgs d).1).2.2.filter
          (fun r => decide (r.Day = d + 1) && decide (r.LG_ID = lg))) =
          ((cgServeList S cap req (d + 1) idx S.TOT_V
          (cgAfterDay S cap req idx lgs d).1).2.2.filter
          (fun r => decide (r.LG_ID = lg))) :=
        List.filter_congr (fun rec hrec => by
          simp [(cgServeList_mem S cap req (d + 1) idx S.TOT_V _ rec hrec).1])
      rw [hcongr]
      have := cgServeList_sum_lg S cap req (d + 1) idx S.TOT_V
        (cgAfterDay S cap req idx lgs d).1 lg hnd
      simp only [List.map_nil, sumQ]
      linarith
    · have hblock : ((cgServeList S cap req (n + 1) idx S.TOT_V
          (cgAfterDay S cap req idx lgs n).1).2.2.filter
          (fun r => decide (r.Day = d + 1) && decide (r.LG_ID = lg))) = [] :=
        List.filter_eq_nil_iff.mpr (fun rec hrec hdec => by
          have h1 := (cgServeList_mem S cap req (n + 1) idx S.TOT_V _ rec hrec).1
          simp only [Bool.and_eq_true, decide_eq_true_eq] at hdec
          omega)
      rw [hblock]
      have := ih d lg
      simp only [List.map_nil, sumQ]
      linarith

/-- C2 (counterexample): on input B, after serving day 1 one vehicle trip
remains (`1 < TOT_V = 2`), depot 1 still has positive future unmet need
(days 2-3 requirement 10 t against 5 t of stock) and 95 t of free room,
yet the ledger holds no second day-1 record: the round-robin pre-stocking
the spec mandates does not happen. -/
theorem C2_counterexample :
    run_simulation wbB SB lgsB fpsB vehsB = .ok (cgB, lgB, snapB) ∧
    (cgB.filter (fun r => decide (r.Day = 1))).length = 1 ∧
    1 < SB.TOT_V ∧
    0 < derivedReq lgB 1 2 + derivedReq lgB 1 3 -
      alGet (cgAfterDay SB capB (derivedReq lgB)
        (reqIndex (lgsB.map (fun r => r.LG_ID)) lgB) lgsB 1).1 1 ∧
    0 < free_room capB
      (cgAfterDay SB capB (derivedReq lgB)
        (reqIndex (lgsB.map (fun r => r.LG_ID)) lgB) lgsB 1).1 1 := by
  refine ⟨runB_eval, ?_, ?_, ?_, ?_⟩
  · norm_num [cgB]
  · norm_num [SB]
  · norm_num [derivedReq, lgB, sumQ, cgAfterDay, cgServeList, serveLG, reqIndex,
      sortInts, insInt, List.dedup, initCGStock, lgsB, capB, SB, alSet, alGet, alHas,
      alUpd, qmax, qmin, free_room, eps]
  · norm_num [derivedReq, lgB, sumQ, cgAfterDay, cgServeList, serveLG, reqIndex,
      sortInts, insInt, List.dedup, initCGStock, lgsB, capB, SB, alSet, alGet, alHas,
      alUpd, qmax, qmin, free_room, eps]

/-- C2 (amended): the CG→LG phase never pre-stocks: on every day the total
dispatched to a depot is bounded by that day's requirement shortfall
(requirement minus the stock already on hand), so trips left over after
meeting the day's requirements are never used. -/
theorem C2_theorem {wb : Workbook} {S : Settings} {lgs : List LGRow}
    {fps : List FPSRow} {veh : List VehicleRow} {cg : List CGDispatch}
    {lgR : List LGDispatch} {sn : List SnapRow} {cap : AL}
    (hc : resolveCapacity wb lgs = .ok cap)
    (h : run_simulation wb S lgs fps veh = .ok (cg, lgR, sn)) (d : Nat) (lg : Int) :
    cgDayLGTotal cg lg (d + 1) ≤
      qmax 0 (derivedReq lgR lg (d + 1) -
        alGet (cgAfterDay S cap (derivedReq lgR)
          (reqIndex (lgs.map (fun r => r.LG_ID)) lgR) lgs d).1 lg) := by
  obtain ⟨fpsR, vehsBase, cap2, hf, hv, hc2, hlg, hsn, hcg⟩ := run_ok_inv h
  rw [hc] at hc2
  injection hc2 with hcap
  subst hcap
  subst hlg
  rw [hcg]
  exact cgAfterDay_day_lg_sum S cap (derivedReq _) _ lgs
    (reqIndex_nodup _ _) S.DAYS d lg

/-- Witness for C2: the amended bound applied to input B, day 1, depot 1. -/
theorem C2_witness :
    cgDayLGTotal cgB 1 1 ≤
      qmax 0 (derivedReq lgB 1 1 -
        alGet (cgAfterDay SB capB (derivedReq lgB)
          (reqIndex (lgsB.map (fun r => r.LG_ID)) lgB) lgsB 0).1 1) :=
  C2_theorem capB_eval runB_eval 0 1

/-!
## Claim C3

The spec claims the CG→LG requirement is accepted either from a directly
supplied per-depot-per-day table or derived from the phase-1 ledger.
`run_simulation` only ever derives it (section 4 of the source); the only
workbook sheet it reads is `LG_Capacity`, so a supplied `LG_Daily_Req`
table has no effect on the result.
-/

/-- C3 (counterexample): input C carries a supplied requirement table
demanding 7 t at depot 1 on day 1, but phase 1 dispatches nothing, the
derived requirement is zero, and the run returns an empty CG ledger —
identical to the run without the table.  The supplied-table path of the
claim does not exist. -/
theorem C3_counterexample :
    run_simulation wbC SC lgsC fpsC vehsC = .ok ([], [], snapC) ∧
    wbC.LG_Daily_Req = some [(1, 1, 7)] ∧
    (∃ f, specSuppliedReq wbC = some f ∧ f 1 1 = 7) ∧
    run_simulation wbC SC lgsC fpsC vehsC =
      run_simulation ⟨wbC.LG_Capacity, none⟩ SC lgsC fpsC vehsC := by
  refine ⟨runC_eval, rfl, ⟨_, rfl, ?_⟩, rfl⟩
  norm_num [sumQ]

/-- C3 (amended): only the derived-requirement path exists; the result of
`run_simulation` is entirely independent of any supplied per-depot-per-day
requirement table in the workbook. -/
theorem C3_theorem (c : Option (List (Int × Q))) (t : List (Int × Nat × Q))
    (S : Settings) (lgs : List LGRow) (fps : List FPSRow) (veh : List VehicleRow) :
    run_simulation ⟨c, some t⟩ S lgs fps veh = run_simulation ⟨c, none⟩ S lgs fps veh :=
  rfl

/-!
## Claim C4

The spec bounds the records of BOTH ledgers together by
`Max_Trips_Per_Vehicle_Per_Day`.  Phase 1 enforces the cap through the
`Trips_Used` counters, and phase 5 uses each rotating id at most once per
day — but the two phases never see each other, so a vehicle id can appear
in both ledgers on the same day and exceed the cap in total.
-/

theorem countV_append (a b : List LGDispatch) (v : Int) :
    countV (a ++ b) v = countV a v + countV b v := by
  simp [countV, List.filter_append]

theorem countV_single (rec : LGDispatch) (v : Int) :
    countV [rec] v = if rec.Vehicle_ID = v then 1 else 0 := by
  by_cases h : rec.Vehicle_ID = v <;> simp [countV, h]

theorem chosen_mem_cand {S : Settings} {st : P1State} {n : Need}
    {chosen : Veh × Nat} {rest : List (Veh × Nat)}
    (hs : sort_values_desc (fun p => isShared p.1)
        ((st.vehs.filter (fun p => p.1.mapped.contains n.lgid)).filter
          (fun p => decide (p.2 < S.MAX_TRIPS))) = chosen :: rest) :
    chosen ∈ st.vehs ∧ n.lgid ∈ chosen.1.mapped ∧ chosen.2 < S.MAX_TRIPS := by
  have hmem : chosen ∈ ((st.vehs.filter (fun p => p.1.mapped.contains n.lgid)).filter
      (fun p => decide (p.2 < S.MAX_TRIPS))) :=
    mem_of_mem_sort_values_desc (hs ▸ List.mem_cons_self chosen rest)
  obtain ⟨hmem1, hlt⟩ := List.mem_filter.mp hmem
  obtain ⟨hmem0, hcont⟩ := List.mem_filter.mp hmem1
  refine ⟨hmem0, ?_, by simpa using hlt⟩
  simpa only [List.contains, List.elem_eq_mem, decide_eq_true_eq] using hcont

theorem trips_upd_inv {S : Settings} {vehs : List (Veh × Nat)} {rows : List LGDispatch}
    {vid : Int} {rec : LGDispatch}
    (h1 : ∀ p ∈ vehs, p.2 = countV rows p.1.vid ∧ p.2 ≤ S.MAX_TRIPS)
    (h2 : ∀ r ∈ rows, ∃ p ∈ vehs, p.1.vid = r.Vehicle_ID)
    (hrec : rec.Vehicle_ID = vid)
    (hex : ∃ c ∈ vehs, c.1.vid = vid ∧ c.2 < S.MAX_TRIPS) :
    (∀ p ∈ vehs.map (fun p => if p.1.vid = vid then (p.1, p.2 + 1) else p),
        p.2 = countV (rows ++ [rec]) p.1.vid ∧ p.2 ≤ S.MAX_TRIPS) ∧
    (∀ r ∈ rows ++ [rec],
        ∃ p ∈ vehs.map (fun p => if p.1.vid = vid then (p.1, p.2 + 1) else p),
          p.1.vid = r.Vehicle_ID) := by
  obtain ⟨c, hc_mem, hc_vid, hc_lt⟩ := hex
  constructor
  · intro p hp
    obtain ⟨q, hq_mem, hq_eq⟩ := List.mem_map.mp hp
    obtain ⟨hq1, hq2⟩ := h1 q hq_mem
    by_cases hv : q.1.vid = vid
    · rw [if_pos hv] at hq_eq
      subst hq_eq
      constructor
      · simp only [countV_append, countV_single, hrec]
        rw [if_pos hv.symm]
        omega
      · have hcv := (h1 c hc_mem).1
        rw [hc_vid] at hcv
        rw [hv] at hq1
        omega
    · rw [if_neg hv] at hq_eq
      subst hq_eq
      constructor
      · simp only [countV_append, countV_single, hrec]
        rw [if_neg (fun he => hv he.symm)]
        omega
      · exact hq2
  · intro r hr
    rcases List.mem_append.mp hr with hr | hr
    · obtain ⟨p, hp_mem, hp_vid⟩ := h2 r hr
      refine ⟨(fun p => if p.1.vid = vid then (p.1, p.2 + 1) else p) p,
        List.mem_map_of_mem _ hp_mem, ?_⟩
      dsimp only
      by_cases hv : p.1.vid = vid
      · rw [if_pos hv]; exact hp_vid
      · rw [if_neg hv]; exact hp_vid
    · simp only [List.mem_singleton] at hr
      subst hr
      refine ⟨(fun p => if p.1.vid = vid then (p.1, p.2 + 1) else p) c,
        List.mem_map_of_mem _ hc_mem, ?_⟩
      dsimp only
      rw [if_pos hc_vid, hrec]
      exact hc_vid

/-- The two observable outcomes of one iteration of the step-3d loop:
either the state is unchanged (no candidate vehicle, or non-positive
quantity), or the chosen head of the sorted candidate frame commits a
positive dispatch. -/
theorem dispatchOne_cases (S : Settings) (day : Nat) (st : P1State) (n : Need) :
    dispatchOne S day st n = st ∨
    ∃ chosen rest,
      sort_values_desc (fun p => isShared p.1)
        ((st.vehs.filter (fun p => p.1.mapped.contains n.lgid)).filter
          (fun p => decide (p.2 < S.MAX_TRIPS))) = chosen :: rest ∧
      ¬ (qmin chosen.1.cap (qmin n.qty (alGet st.lgS n.lgid)) ≤ 0) ∧
      dispatchOne S day st n =
        ⟨alSet st.lgS n.lgid (alGet st.lgS n.lgid -
            qmin chosen.1.cap (qmin n.qty (alGet st.lgS n.lgid))),
          alSet st.fS n.fid (alGet st.fS n.fid +
            qmin chosen.1.cap (qmin n.qty (alGet st.lgS n.lgid))),
          st.vehs.map (fun p => if p.1.vid = chosen.1.vid then (p.1, p.2 + 1) else p),
          st.rows ++ [⟨day, chosen.1.vid, n.lgid, n.fid,
            qmin chosen.1.cap (qmin n.qty (alGet st.lgS n.lgid))⟩]⟩ := by
  cases hs : sort_values_desc (fun p => isShared p.1)
      ((st.vehs.filter (fun p => p.1.mapped.contains n.lgid)).filter
        (fun p => decide (p.2 < S.MAX_TRIPS))) with
  | nil => left; simp only [dispatchOne, hs]
  | cons chosen rest =>
    by_cases hq : qmin chosen.1.cap (qmin n.qty (alGet st.lgS n.lgid)) ≤ 0
    · left; simp only [dispatchOne, hs, if_pos hq]
    · right
      refine ⟨chosen, rest, rfl, hq, ?_⟩
      simp only [dispatchOne, hs, if_neg hq]

theorem dispatchOne_inv (S : Settings) (day : Nat) (st : P1State) (n : Need)
    (h1 : ∀ p ∈ st.vehs, p.2 = countV st.rows p.1.vid ∧ p.2 ≤ S.MAX_TRIPS)
    (h2 : ∀ rec ∈ st.rows, ∃ p ∈ st.vehs, p.1.vid = rec.Vehicle_ID) :
    (∀ p ∈ (dispatchOne S day st n).vehs,
        p.2 = countV (dispatchOne S day st n).rows p.1.vid ∧ p.2 ≤ S.MAX_TRIPS) ∧
    (∀ rec ∈ (dispatchOne S day st n).rows,
        ∃ p ∈ (dispatchOne S day st n).vehs, p.1.vid = rec.Vehicle_ID) := by
  rcases dispatchOne_cases S day st n with heq | ⟨chosen, rest, hs, hq, heq⟩
  · rw [heq]; exact ⟨h1, h2⟩
  · obtain ⟨hc_mem, hc_lg, hc_lt⟩ := chosen_mem_cand hs
    rw [heq]
    exact trips_upd_inv h1 h2 rfl ⟨chosen, hc_mem, rfl, hc_lt⟩

theorem dispatchAll_inv (S : Settings) (day : Nat) :
    ∀ (needs : List Need) (st : P1State),
      (∀ p ∈ st.vehs, p.2 = countV st.rows p.1.vid ∧ p.2 ≤ S.MAX_TRIPS) →
      (∀ rec ∈ st.rows, ∃ p ∈ st.vehs, p.1.vid = rec.Vehicle_ID) →
      (∀ p ∈ (dispatchAll S day st needs).vehs,
          p.2 = countV (dispatchAll S day st needs).rows p.1.vid ∧
            p.2 ≤ S.MAX_TRIPS) ∧
      (∀ rec ∈ (dispatchAll S day st needs).rows,
          ∃ p ∈ (dispatchAll S day st needs).vehs, p.1.vid = rec.Vehicle_ID) := by
  intro needs
  induction needs with
  | nil => intro st h1 h2; exact ⟨h1, h2⟩
  | cons n ns ih =>
    intro st h1 h2
    obtain ⟨h1a, h2a⟩ := dispatchOne_inv S day st n h1 h2
    exact ih (dispatchOne S day st n) h1a h2a

theorem dispatchAll_countV_le (S : Settings) (day : Nat) (needs : List Need)
    (vehsBase : List Veh) (lgS fS : AL) (v : Int) :
    countV (dispatchAll S day ⟨lgS, fS, vehsBase.map (fun x => (x, 0)), []⟩ needs).rows
      v ≤ S.MAX_TRIPS := by
  have h1 : ∀ p ∈ vehsBase.map (fun x => (x, 0)),
      p.2 = countV ([] : List LGDispatch) p.1.vid ∧ p.2 ≤ S.MAX_TRIPS := by
    intro p hp
    obtain ⟨q, _, hq⟩ := List.mem_map.mp hp
    subst hq
    exact ⟨by simp [countV], Nat.zero_le _⟩
  have h2 : ∀ rec ∈ ([] : List LGDispatch),
      ∃ p ∈ vehsBase.map (fun x => (x, 0)), p.1.vid = rec.Vehicle_ID := by
    intro rec hrec; simp at hrec
  obtain ⟨ha, hb⟩ := dispatchAll_inv S day needs
    ⟨lgS, fS, vehsBase.map (fun x => (x, 0)), []⟩ h1 h2
  by_cases hex : ∃ p ∈ (dispatchAll S day
      ⟨lgS, fS, vehsBase.map (fun x => (x, 0)), []⟩ needs).vehs, p.1.vid = v
  · obtain ⟨p, hp, hpv⟩ := hex
    have h3 := ha p hp
    rw [hpv] at h3
    omega
  · have h0 : countV (dispatchAll S day
        ⟨lgS, fS, vehsBase.map (fun x => (x, 0)), []⟩ needs).rows v = 0 := by
      unfold countV
      rw [List.length_eq_zero, List.filter_eq_nil_iff]
      intro rec hrec hdec
      simp only [decide_eq_true_eq] at hdec
      obtain ⟨p, hp, hpv⟩ := hb rec hrec
      exact hex ⟨p, hp, hdec ▸ hpv⟩
    omega

theorem dispatchAll_rows_sub (S : Settings) (day : Nat) :
    ∀ (needs : List Need) (st : P1State) (rec : LGDispatch),
      rec ∈ (dispatchAll S day st needs).rows → rec ∈ st.rows ∨ rec.Day = day := by
  intro needs
  induction needs with
  | nil => intro st rec h; exact Or.inl h
  | cons n ns ih =>
    intro st rec h
    rcases ih (dispatchOne S day st n) rec h with h | h
    · rcases dispatchOne_cases S day st n with heq | ⟨chosen, rest, hs, hq, heq⟩
      · rw [heq] at h; exact Or.inl h
      · rw [heq] at h
        rcases List.mem_append.mp h with h | h
        · exact Or.inl h
        · simp only [List.mem_singleton] at h
          subst h
          exact Or.inr rfl
    · exact Or.inr h

theorem p1Day_rows (S : Settings) (fpsR : List FPSRec) (vehsBase : List Veh)
    (acc : P1Acc) (day : Nat) :
    ∃ blk, (p1Day S fpsR vehsBase acc day).rows = acc.rows ++ blk ∧
      (∀ rec ∈ blk, rec.Day = day) ∧
      (∀ v, countV blk v ≤ S.MAX_TRIPS) := by
  refine ⟨_, rfl, ?_, ?_⟩
  · intro rec hrec
    rcases dispatchAll_rows_sub S day _ _ rec hrec with h | h
    · simp at h
    · exact h
  · intro v
    exact dispatchAll_countV_le S day _ vehsBase _ _ v

theorem p1AfterDay_rows_day (S : Settings) (fpsR : List FPSRec)
    (vehsBase : List Veh) (lgs : List LGRow) :
    ∀ (n : Nat), ∀ rec ∈ (p1AfterDay S fpsR vehsBase lgs n).rows,
      1 ≤ rec.Day ∧ rec.Day ≤ n := by
  intro n
  induction n with
  | zero => intro rec hrec; simp [p1AfterDay] at hrec
  | succ n ih =>
    intro rec hrec
    obtain ⟨blk, heq, hday, _⟩ := p1Day_rows S fpsR vehsBase
      (p1AfterDay S fpsR vehsBase lgs n) (n + 1)
    rw [show p1AfterDay S fpsR vehsBase lgs (n + 1) =
      p1Day S fpsR vehsBase (p1AfterDay S fpsR vehsBase lgs n) (n + 1) from rfl,
      heq] at hrec
    rcases List.mem_append.mp hrec with h | h
    · obtain ⟨h1, h2⟩ := ih rec h
      exact ⟨h1, Nat.le_succ_of_le h2⟩
    · have := hday rec h
      omega

theorem tripsLG_append (a b : List LGDispatch) (v : Int) (d : Nat) :
    tripsLG (a ++ b) v d = tripsLG a v d + tripsLG b v d := by
  simp [tripsLG, List.filter_append]

theorem p1AfterDay_tripsLG_le (S : Settings) (fpsR : List FPSRec)
    (vehsBase : List Veh) (lgs : List LGRow) :
    ∀ (n : Nat) (v : Int) (d : Nat),
      tripsLG (p1AfterDay S fpsR vehsBase lgs n).rows v d ≤ S.MAX_TRIPS := by
  intro n
  induction n with
  | zero => intro v d; simp [p1AfterDay, tripsLG]
  | succ n ih =>
    intro v d
    obtain ⟨blk, heq, hday, hcnt⟩ := p1Day_rows S fpsR vehsBase
      (p1AfterDay S fpsR vehsBase lgs n) (n + 1)
    rw [show p1AfterDay S fpsR vehsBase lgs (n + 1) =
      p1Day S fpsR vehsBase (p1AfterDay S fpsR vehsBase lgs n) (n + 1) from rfl,
      heq, tripsLG_append]
    by_cases hd : d = n + 1
    · have hprev : tripsLG (p1AfterDay S fpsR vehsBase lgs n).rows v d = 0 := by
        unfold tripsLG
        rw [List.length_eq_zero, List.filter_eq_nil_iff]
        intro rec hrec hdec
        obtain ⟨_, h2⟩ := p1AfterDay_rows_day S fpsR vehsBase lgs n rec hrec
        simp only [Bool.and_eq_true, decide_eq_true_eq] at hdec
        omega
      have hblk : tripsLG blk v d ≤ S.MAX_TRIPS := by
        unfold tripsLG
        have hcg : blk.filter (fun r => decide (r.Vehicle_ID = v) && decide (r.Day = d)) =
            blk.filter (fun r => decide (r.Vehicle_ID = v)) :=
          List.filter_congr (fun rec hrec => by simp [hday rec hrec, hd])
        rw [hcg]
        exact hcnt v
      omega
    · have hblk : tripsLG blk v d = 0 := by
        unfold tripsLG
        rw [List.length_eq_zero, List.filter_eq_nil_iff]
        intro rec hrec hdec
        simp only [Bool.and_eq_true, decide_eq_true_eq] at hdec
        exact hd (by rw [← hdec.2]; exact hday rec hrec)
      have := ih v d
      omega

theorem serveLG_vid_bounds (S : Settings) (cap : AL) (day : Nat) (lg : Int) :
    ∀ (tl : Nat) (need : Q) (st : AL),
      (serveLG S cap day lg tl need st).2.1 ≤ tl ∧
      (∀ rec ∈ (serveLG S cap day lg tl need st).2.2,
        (S.TOT_V : Int) - tl < rec.Vehicle_ID ∧
          rec.Vehicle_ID ≤ (S.TOT_V : Int) - (serveLG S cap day lg tl need st).2.1) ∧
      (serveLG S cap day lg tl need st).2.2.Pairwise
        (fun a b => a.Vehicle_ID < b.Vehicle_ID) := by
  intro tl
  induction tl with
  | zero =>
    intro need st
    exact ⟨le_refl 0, by simp [serveLG], by simp [serveLG]⟩
  | succ tl ih =>
    intro need st
    simp only [serveLG]
    split_ifs with h1 h2
    · exact ⟨le_refl _, by simp, by simp⟩
    · exact ⟨le_refl _, by simp, by simp⟩
    · dsimp only
      obtain ⟨ihl, ihb, ihp⟩ := ih
        (need - qmin S.TRUCK_CAP (qmin need (free_room cap st lg)))
        (alSet st lg (alGet st lg + qmin S.TRUCK_CAP (qmin need (free_room cap st lg))))
      refine ⟨by omega, ?_, ?_⟩
      · intro rec hrec
        rcases List.mem_cons.mp hrec with hrec | hrec
        · subst hrec
          constructor
          · push_cast
            omega
          · push_cast
            omega
        · obtain ⟨hb1, hb2⟩ := ihb rec hrec
          constructor
          · push_cast at hb1 ⊢
            omega
          · exact hb2
      · refine List.pairwise_cons.mpr ⟨?_, ihp⟩
        intro b hb
        have hbb := (ihb b hb).1
        push_cast at hbb ⊢
        omega

theorem cgServeList_vid_bounds (S : Settings) (cap : AL) (req : Int → Nat → Q)
    (day : Nat) :
    ∀ (lst : List Int) (tl : Nat) (st : AL),
      (cgServeList S cap req day lst tl st).2.1 ≤ tl ∧
      (∀ rec ∈ (cgServeList S cap req day lst tl st).2.2,
        (S.TOT_V : Int) - tl < rec.Vehicle_ID ∧
          rec.Vehicle_ID ≤ (S.TOT_V : Int) - (cgServeList S cap req day lst tl st).2.1) ∧
      (cgServeList S cap req day lst tl st).2.2.Pairwise
        (fun a b => a.Vehicle_ID < b.Vehicle_ID) := by
  intro lst
  induction lst with
  | nil =>
    intro tl st
    exact ⟨le_refl tl, by simp [cgServeList], by simp [cgServeList]⟩
  | cons l rest ih =>
    intro tl st
    simp only [cgServeList]
    obtain ⟨h1l, h1b, h1p⟩ := serveLG_vid_bounds S cap day l tl
      (qmax 0 (req l day - alGet st l)) st
    obtain ⟨h2l, h2b, h2p⟩ := ih
      (serveLG S cap day l tl (qmax 0 (req l day - alGet st l)) st).2.1
      (serveLG S cap day l tl (qmax 0 (req l day - alGet st l)) st).1
    refine ⟨by omega, ?_, ?_⟩
    · intro rec hrec
      rcases List.mem_append.mp hrec with hrec | hrec
      · obtain ⟨a, b⟩ := h1b rec hrec
        refine ⟨a, ?_⟩
        have : ((cgServeList S cap req day rest
            (serveLG S cap day l tl (qmax 0 (req l day - alGet st l)) st).2.1
            (serveLG S cap day l tl (qmax 0 (req l day - alGet st l)) st).1).2.1 : Int) ≤
            ((serveLG S cap day l tl (qmax 0 (req l day - alGet st l)) st).2.1 : Int) := by
          exact_mod_cast h2l
        omega
      · obtain ⟨a, b⟩ := h2b rec hrec
        refine ⟨?_, b⟩
        have : ((serveLG S cap day l tl (qmax 0 (req l day - alGet st l)) st).2.1 : Int) ≤
            (tl : Int) := by exact_mod_cast h1l
        omega
    · rw [List.pairwise_append]
      refine ⟨h1p, h2p, ?_⟩
      intro a ha b hb
      have hA := (h1b a ha).2
      have hB := (h2b b hb).1
      omega

theorem pairwise_vid_count_le_one (v : Int) :
    ∀ (rows : List CGDispatch),
      rows.Pairwise (fun a b => a.Vehicle_ID < b.Vehicle_ID) →
      (rows.filter (fun r => decide (r.Vehicle_ID = v))).length ≤ 1 := by
  intro rows
  induction rows with
  | nil => intro _; simp
  | cons r rs ih =>
    intro h
    obtain ⟨hr, hrs⟩ := List.pairwise_cons.mp h
    by_cases hv : r.Vehicle_ID = v
    · have hnil : rs.filter (fun r => decide (r.Vehicle_ID = v)) = [] := by
        rw [List.filter_eq_nil_iff]
        intro b hb hdec
        simp only [decide_eq_true_eq] at hdec
        have := hr b hb
        omega
      simp [List.filter_cons, hv, hnil]
    · simpa [List.filter_cons, hv] using ih hrs

theorem cgAfterDay_tripsCG_le_one (S : Settings) (cap : AL) (req : Int → Nat → Q)
    (idx : List Int) (lgs : List LGRow) :
    ∀ (n : Nat) (v : Int) (d : Nat),
      tripsCG (cgAfterDay S cap req idx lgs n).2 v d ≤ 1 := by
  intro n
  induction n with
  | zero => intro v d; simp [cgAfterDay, tripsCG]
  | succ n ih =>
    intro v d
    unfold tripsCG
    simp only [cgAfterDay, List.filter_append, List.length_append]
    by_cases hd : d = n + 1
    · have hprev : ((cgAfterDay S cap req idx lgs n).2.filter
          (fun r => decide (r.Vehicle_ID = v) && decide (r.Day = d))) = [] := by
        rw [List.filter_eq_nil_iff]
        intro rec hrec hdec
        obtain ⟨_, h2, _⟩ := cgAfterDay_mem S cap req idx lgs n rec hrec
        simp only [Bool.and_eq_true, decide_eq_true_eq] at hdec
        omega
      rw [hprev]
      have hcongr : ((cgServeList S cap req (n + 1) idx S.TOT_V
          (cgAfterDay S cap req idx lgs n).1).2.2.filter
          (fun r => decide (r.Vehicle_ID = v) && decide (r.Day = d))) =
          ((cgServeList S cap req (n + 1) idx S.TOT_V
          (cgAfterDay S cap req idx lgs n).1).2.2.filter
          (fun r => decide (r.Vehicle_ID = v))) :=
        List.filter_congr (fun rec hrec => by
          simp [(cgServeList_mem S cap req (n + 1) idx S.TOT_V _ rec hrec).1, hd])
      rw [hcongr]
      have hp := (cgServeList_vid_bounds S cap req (n + 1) idx S.TOT_V
        (cgAfterDay S cap req idx lgs n).1).2.2
      have := pairwise_vid_count_le_one v _ hp
      simp only [List.length_nil]
      omega
    · have hblk : ((cgServeList S cap req (n + 1) idx S.TOT_V
          (cgAfterDay S cap req idx lgs n).1).2.2.filter
          (fun r => decide (r.Vehicle_ID = v) && decide (r.Day = d))) = [] := by
        rw [List.filter_eq_nil_iff]
        intro rec hrec hdec
        have h1 := (cgServeList_mem S cap req (n + 1) idx S.TOT_V _ rec hrec).1
        simp only [Bool.and_eq_true, decide_eq_true_eq] at hdec
        omega
      rw [hblk]
      have ih2 := ih v d
      unfold tripsCG at ih2
      simp only [List.length_nil]
      omega

/-- C4 (counterexample): on input B (`Max_Trips_Per_Vehicle_Per_Day = 1`)
vehicle 1 appears once in the depot→outlet ledger AND once in the
central→depot ledger on day 1 — two records in total, exceeding the cap
when both ledgers are counted as the claim requires. -/
theorem C4_counterexample :
    run_simulation wbB SB lgsB fpsB vehsB = .ok (cgB, lgB, snapB) ∧
    SB.MAX_TRIPS = 1 ∧
    tripsLG lgB 1 1 + tripsCG cgB 1 1 = 2 := by
  refine ⟨runB_eval, rfl, ?_⟩
  norm_num [tripsLG, tripsCG, lgB, cgB]

/-- C4 (amended): the trip cap holds within each ledger separately: on
any day a vehicle has at most `Max_Trips_Per_Vehicle_Per_Day` records in
the depot→outlet ledger and at most one record in the central→depot
ledger; the combined count is not bounded by the cap. -/
theorem C4_theorem {wb : Workbook} {S : Settings} {lgs : List LGRow}
    {fps : List FPSRow} {veh : List VehicleRow} {cg : List CGDispatch}
    {lgR : List LGDispatch} {sn : List SnapRow}
    (h : run_simulation wb S lgs fps veh = .ok (cg, lgR, sn)) (v : Int) (d : Nat) :
    tripsLG lgR v d ≤ S.MAX_TRIPS ∧ tripsCG cg v d ≤ 1 := by
  obtain ⟨fpsR, vehsBase, cap, hf, hv, hc, hlg, hsn, hcg⟩ := run_ok_inv h
  constructor
  · rw [hlg]; exact p1AfterDay_tripsLG_le S fpsR vehsBase lgs S.DAYS v d
  · rw [hcg]; exact cgAfterDay_tripsCG_le_one S cap _ _ lgs S.DAYS v d

/-- Witness for C4: the per-ledger bounds applied to input B, vehicle 1,
day 1. -/
theorem C4_witness : tripsLG lgB 1 1 ≤ SB.MAX_TRIPS ∧ tripsCG cgB 1 1 ≤ 1 :=
  C4_theorem runB_eval 1 1

/-!
## Claim C5

Capacity bound after inbound deliveries.  Outlet side: a need is computed
as `min(max capacity - current stock, depot stock)` against the
consumption-time stock, each outlet appears at most once per day in the
needs list (given distinct FPS ids), and the shipped quantity is capped by
the need — so after the delivery the outlet holds at most its maximum
capacity.  Depot side: every CG delivery is capped by `free_room`, so the
stock right after it is at most the depot capacity.
-/

/-- How `computeNeeds` treats the head row: either it emits one need for
it (stock at or below threshold, positive need) or it drops it. -/
theorem computeNeeds_cons (lgS fS : AL) (r : FPSRec) (rs : List FPSRec) :
    (alGet fS r.fid ≤ r.threshold ∧
      0 < qmin (r.maxCap - alGet fS r.fid) (alGet lgS r.lgid) ∧
      computeNeeds lgS fS (r :: rs) =
        ⟨if 0 < r.daily then (r.threshold - alGet fS r.fid) / r.daily else 0,
          r.fid, r.lgid, qmin (r.maxCap - alGet fS r.fid) (alGet lgS r.lgid)⟩ ::
          computeNeeds lgS fS rs) ∨
    computeNeeds lgS fS (r :: rs) = computeNeeds lgS fS rs := by
  by_cases h1 : alGet fS r.fid ≤ r.threshold
  · by_cases h2 : 0 < qmin (r.maxCap - alGet fS r.fid) (alGet lgS r.lgid)
    · exact Or.inl ⟨h1, h2, by simp only [computeNeeds, if_pos h1, if_pos h2]⟩
    · exact Or.inr (by simp only [computeNeeds, if_pos h1, if_neg h2])
  · exact Or.inr (by simp only [computeNeeds, if_neg h1])

theorem computeNeeds_fid_sublist (lgS fS : AL) :
    ∀ (l : List FPSRec),
      ((computeNeeds lgS fS l).map (fun n => n.fid)).Sublist
        (l.map (fun r => r.fid)) := by
  intro l
  induction l with
  | nil => simp [computeNeeds]
  | cons r rs ih =>
    rcases computeNeeds_cons lgS fS r rs with ⟨_, _, he⟩ | he
    · rw [he, List.map_cons, List.map_cons]
      exact List.Sublist.cons₂ _ ih
    · rw [he, List.map_cons]
      exact List.Sublist.cons _ ih

theorem computeNeeds_bound (lgS fS : AL) :
    ∀ (l : List FPSRec), ∀ n ∈ computeNeeds lgS fS l,
      ∃ r ∈ l, r.fid = n.fid ∧ n.qty ≤ r.maxCap - alGet fS n.fid := by
  intro l
  induction l with
  | nil => intro n hn; simp [computeNeeds] at hn
  | cons r rs ih =>
    intro n hn
    rcases computeNeeds_cons lgS fS r rs with ⟨_, _, he⟩ | he
    · rw [he] at hn
      rcases List.mem_cons.mp hn with hn | hn
      · subst hn
        exact ⟨r, List.mem_cons_self r rs, rfl, qmin_le_left _ _⟩
      · obtain ⟨r2, hr2, heq, hq⟩ := ih n hn
        exact ⟨r2, List.mem_cons_of_mem r hr2, heq, hq⟩
    · rw [he] at hn
      obtain ⟨r2, hr2, heq, hq⟩ := ih n hn
      exact ⟨r2, List.mem_cons_of_mem r hr2, heq, hq⟩

theorem mem_sortNeedsDesc {n : Need} {l : List Need} (h : n ∈ sortNeedsDesc l) :
    n ∈ l :=
  (sortNeedsDesc_perm l).mem_iff.mp h

theorem sortNeedsDesc_fid_nodup {l : List Need}
    (h : (l.map (fun n => n.fid)).Nodup) :
    ((sortNeedsDesc l).map (fun n => n.fid)).Nodup :=
  (((sortNeedsDesc_perm l).map (fun n => n.fid)).nodup_iff).mpr h

theorem dispatchAll_cap_inv (S : Settings) (day : Nat) (fS1 : AL)
    (fpsR : List FPSRec) :
    ∀ (needs : List Need) (st : P1State),
      ((needs.map (fun n => n.fid)).Nodup) →
      (∀ n ∈ needs, alGet st.fS n.fid = alGet fS1 n.fid) →
      (∀ n ∈ needs, ∃ r ∈ fpsR, r.fid = n.fid ∧
          n.qty ≤ r.maxCap - alGet fS1 n.fid) →
      (∀ rec ∈ st.rows, ∃ r ∈ fpsR, r.fid = rec.FPS_ID ∧
          alGet st.fS rec.FPS_ID ≤ r.maxCap) →
      (∀ rec ∈ st.rows, ∀ n ∈ needs, rec.FPS_ID ≠ n.fid) →
      ∀ rec ∈ (dispatchAll S day st needs).rows,
        ∃ r ∈ fpsR, r.fid = rec.FPS_ID ∧
          alGet (dispatchAll S day st needs).fS rec.FPS_ID ≤ r.maxCap := by
  intro needs
  induction needs with
  | nil => intro st _ _ _ hA _; exact hA
  | cons n ns ih =>
    intro st hnd hB hC hA hD
    rw [List.map_cons] at hnd
    have hnd2 := List.nodup_cons.mp hnd
    rcases dispatchOne_cases S day st n with heq | ⟨chosen, rest, hs, hq, heq⟩
    · refine ih (dispatchOne S day st n) ?_ ?_ ?_ ?_ ?_
      · exact hnd2.2
      · intro m hm; rw [heq]; exact hB m (List.mem_cons_of_mem n hm)
      · intro m hm; exact hC m (List.mem_cons_of_mem n hm)
      · intro rec hrec; rw [heq] at hrec ⊢; exact hA rec hrec
      · intro rec hrec m hm; rw [heq] at hrec
        exact hD rec hrec m (List.mem_cons_of_mem n hm)
    · have hqpos : 0 < qmin chosen.1.cap (qmin n.qty (alGet st.lgS n.lgid)) :=
        lt_of_not_le hq
      refine ih (dispatchOne S day st n) ?_ ?_ ?_ ?_ ?_
      · exact hnd2.2
      · intro m hm
        rw [heq]
        have hne : m.fid ≠ n.fid := fun he => hnd2.1 (he ▸ List.mem_map_of_mem _ hm)
        show alGet (alSet st.fS n.fid _) m.fid = alGet fS1 m.fid
        rw [alGet_alSet_ne hne]
        exact hB m (List.mem_cons_of_mem n hm)
      · intro m hm; exact hC m (List.mem_cons_of_mem n hm)
      · intro rec hrec
        rw [heq] at hrec
        rcases List.mem_append.mp hrec with hrec | hrec
        · obtain ⟨r, hr, hre, hle⟩ := hA rec hrec
          refine ⟨r, hr, hre, ?_⟩
          rw [heq]
          show alGet (alSet st.fS n.fid _) rec.FPS_ID ≤ r.maxCap
          rw [alGet_alSet_ne (hD rec hrec n (List.mem_cons_self n ns))]
          exact hle
        · simp only [List.mem_singleton] at hrec
          subst hrec
          obtain ⟨r, hr, hre, hle⟩ := hC n (List.mem_cons_self n ns)
          refine ⟨r, hr, hre, ?_⟩
          rw [heq]
          show alGet (alSet st.fS n.fid
            (alGet st.fS n.fid + qmin chosen.1.cap (qmin n.qty (alGet st.lgS n.lgid))))
            n.fid ≤ r.maxCap
          rw [alGet_alSet_self, hB n (List.mem_cons_self n ns)]
          have hle2 : qmin chosen.1.cap (qmin n.qty (alGet st.lgS n.lgid)) ≤ n.qty :=
            le_trans (qmin_le_right _ _) (qmin_le_left _ _)
          linarith
      · intro rec hrec m hm
        rw [heq] at hrec
        rcases List.mem_append.mp hrec with hrec | hrec
        · exact hD rec hrec m (List.mem_cons_of_mem n hm)
        · simp only [List.mem_singleton] at hrec
          subst hrec
          show n.fid ≠ m.fid
          exact fun he => hnd2.1 (he ▸ List.mem_map_of_mem _ hm)

theorem p1Day_cap (S : Settings) (fpsR : List FPSRec) (vehsBase : List Veh)
    (acc : P1Acc) (day : Nat) (hnd : (fpsR.map (fun r => r.fid)).Nodup) :
    ∀ rec ∈ (p1Day S fpsR vehsBase acc day).rows,
      rec ∈ acc.rows ∨
      ∃ r ∈ fpsR, r.fid = rec.FPS_ID ∧
        alGet (p1Day S fpsR vehsBase acc day).fS rec.FPS_ID ≤ r.maxCap := by
  intro rec hrec
  simp only [p1Day] at hrec ⊢
  rcases List.mem_append.mp hrec with hrec | hrec
  · exact Or.inl hrec
  · right
    refine dispatchAll_cap_inv S day (consumeDay fpsR acc.fS) fpsR _ _ ?_ ?_ ?_ ?_ ?_
      rec hrec
    · refine sortNeedsDesc_fid_nodup ?_
      exact (computeNeeds_fid_sublist acc.lgS (consumeDay fpsR acc.fS) fpsR).nodup hnd
    · intro m hm; rfl
    · intro m hm
      exact computeNeeds_bound acc.lgS (consumeDay fpsR acc.fS) fpsR m
        (mem_sortNeedsDesc hm)
    · intro r2 hr2; simp at hr2
    · intro r2 hr2; simp at hr2

theorem p1AfterDay_cap (S : Settings) (fpsR : List FPSRec) (vehsBase : List Veh)
    (lgs : List LGRow) (hnd : (fpsR.map (fun r => r.fid)).Nodup) :
    ∀ (n : Nat), ∀ rec ∈ (p1AfterDay S fpsR vehsBase lgs n).rows,
      ∃ r ∈ fpsR, r.fid = rec.FPS_ID ∧
        alGet (p1AfterDay S fpsR vehsBase lgs rec.Day).fS rec.FPS_ID ≤ r.maxCap := by
  intro n
  induction n with
  | zero => intro rec hrec; simp [p1AfterDay] at hrec
  | succ n ih =>
    intro rec hrec
    obtain ⟨blk, heq, hday, _⟩ := p1Day_rows S fpsR vehsBase
      (p1AfterDay S fpsR vehsBase lgs n) (n + 1)
    have hrec2 := hrec
    rw [show p1AfterDay S fpsR vehsBase lgs (n + 1) =
      p1Day S fpsR vehsBase (p1AfterDay S fpsR vehsBase lgs n) (n + 1) from rfl,
      heq] at hrec2
    rcases List.mem_append.mp hrec2 with hold | hnew
    · exact ih rec hold
    · have hd : rec.Day = n + 1 := hday rec hnew
      rcases p1Day_cap S fpsR vehsBase (p1AfterDay S fpsR vehsBase lgs n) (n + 1) hnd
        rec hrec with hold | ⟨r, hr, hre, hle⟩
      · have hb := p1AfterDay_rows_day S fpsR vehsBase lgs n rec hold
        exact absurd hd (by omega)
      · exact ⟨r, hr, hre, by rw [hd]; exact hle⟩

theorem serveLG_nil_stock (S : Settings) (cap : AL) (day : Nat) (lg : Int) :
    ∀ (tl : Nat) (need : Q) (st : AL),
      (serveLG S cap day lg tl need st).2.2 = [] →
      (serveLG S cap day lg tl need st).1 = st := by
  intro tl
  induction tl with
  | zero => intro need st _; rfl
  | succ tl ih =>
    intro need st hnil
    simp only [serveLG] at hnil ⊢
    split_ifs at hnil ⊢ with h1 h2 <;> rfl

theorem serveLG_cap_last (S : Settings) (cap : AL) (day : Nat) (lg : Int) :
    ∀ (tl : Nat) (need : Q) (st : AL),
      (serveLG S cap day lg tl need st).2.2 ≠ [] →
      alGet (serveLG S cap day lg tl need st).1 lg ≤ alGet cap lg := by
  intro tl
  induction tl with
  | zero => intro need st h; exact absurd rfl h
  | succ tl ih =>
    intro need st h
    simp only [serveLG] at h ⊢
    split_ifs at h ⊢ with h1 h2
    · exact absurd rfl h
    · exact absurd rfl h
    · dsimp only at h ⊢
      by_cases hnil : (serveLG S cap day lg tl
          (need - qmin S.TRUCK_CAP (qmin need (free_room cap st lg)))
          (alSet st lg (alGet st lg +
            qmin S.TRUCK_CAP (qmin need (free_room cap st lg))))).2.2 = []
      · rw [serveLG_nil_stock S cap day lg tl _ _ hnil, alGet_alSet_self]
        have hroom : qmin S.TRUCK_CAP (qmin need (free_room cap st lg)) ≤
            free_room cap st lg := le_trans (qmin_le_right _ _) (qmin_le_right _ _)
        have hpos : 0 < qmin S.TRUCK_CAP (qmin need (free_room cap st lg)) := by
          have := eps_pos; linarith [not_le.mp h2]
        have := le_of_le_qmax_zero (by simpa [free_room] using hroom) hpos
        linarith
      · exact ih _ _ hnil

theorem cgServeList_cap (S : Settings) (cap : AL) (req : Int → Nat → Q) (day : Nat) :
    ∀ (lst : List Int) (tl : Nat) (st : AL), lst.Nodup →
      ∀ rec ∈ (cgServeList S cap req day lst tl st).2.2,
        alGet (cgServeList S cap req day lst tl st).1 rec.LG_ID ≤
          alGet cap rec.LG_ID := by
  intro lst
  induction lst with
  | nil => intro tl st _ rec hrec; simp [cgServeList] at hrec
  | cons l rest ih =>
    intro tl st hnd rec hrec
    have hnd2 := List.nodup_cons.mp hnd
    simp only [cgServeList] at hrec ⊢
    rcases List.mem_append.mp hrec with hrec | hrec
    · have hlg : rec.LG_ID = l := (serveLG_mem S cap day l tl _ st rec hrec).2
      rw [hlg]
      rw [cgServeList_stock_other S cap req day rest _ _ l hnd2.1]
      exact serveLG_cap_last S cap day l tl _ st
        (fun he => by rw [he] at hrec; simp at hrec)
    · exact ih _ _ hnd2.2 rec hrec

theorem cgAfterDay_cap (S : Settings) (cap : AL) (req : Int → Nat → Q)
    (idx : List Int) (lgs : List LGRow) (hnd : idx.Nodup) :
    ∀ (n : Nat), ∀ rec ∈ (cgAfterDay S cap req idx lgs n).2,
      alGet (cgAfterDay S cap req idx lgs rec.Day).1 rec.LG_ID ≤
        alGet cap rec.LG_ID := by
  intro n
  induction n with
  | zero => intro rec hrec; simp [cgAfterDay] at hrec
  | succ n ih =>
    intro rec hrec
    simp only [cgAfterDay] at hrec
    rcases List.mem_append.mp hrec with hrec | hrec
    · exact ih rec hrec
    · have hd : rec.Day = n + 1 :=
        (cgServeList_mem S cap req (n + 1) idx S.TOT_V _ rec hrec).1
      rw [hd]
      simp only [cgAfterDay]
      exact cgServeList_cap S cap req (n + 1) idx S.TOT_V
        (cgAfterDay S cap req idx lgs n).1 hnd rec hrec

/-- C5: for every record of either ledger, the stock of the receiving
entity at the end of the delivery day — hence immediately after the
delivery, since within a day the receiving stock only grows — is at most
its capacity.  Outlets are bounded by their `Max_Capacity_tons` row value
(assuming distinct FPS ids, as the data model requires); depots are
bounded by the resolved capacity table. -/
theorem C5_theorem {wb : Workbook} {S : Settings} {lgs : List LGRow}
    {fps : List FPSRow} {veh : List VehicleRow} {cg : List CGDispatch}
    {lgR : List LGDispatch} {sn : List SnapRow}
    {fpsR : List FPSRec} {vehsBase : List Veh} {cap : AL}
    (hf : prepFPS S (lgs.map (fun r => r.LG_ID)) (buildNameMap lgs) fps = .ok fpsR)
    (hv : prepVehicles S (lgs.map (fun r => r.LG_ID)) (buildNameMap lgs) veh = .ok vehsBase)
    (hc : resolveCapacity wb lgs = .ok cap)
    (h : run_simulation wb S lgs fps veh = .ok (cg, lgR, sn))
    (hnd : (fpsR.map (fun r => r.fid)).Nodup) :
    (∀ rec ∈ lgR, ∃ r ∈ fpsR, r.fid = rec.FPS_ID ∧
        alGet (p1AfterDay S fpsR vehsBase lgs rec.Day).fS rec.FPS_ID ≤ r.maxCap) ∧
    (∀ rec ∈ cg,
        alGet (cgAfterDay S cap (derivedReq lgR)
          (reqIndex (lgs.map (fun r => r.LG_ID)) lgR) lgs rec.Day).1 rec.LG_ID ≤
          alGet cap rec.LG_ID) := by
  obtain ⟨hlg, hsn, hcg⟩ := run_ok_elim hf hv hc h
  subst hlg
  subst hcg
  constructor
  · exact p1AfterDay_cap S fpsR vehsBase lgs hnd S.DAYS
  · exact cgAfterDay_cap S cap _ _ lgs (reqIndex_nodup _ _) S.DAYS

/-- Witness for C5: both capacity bounds applied to input B (record
`⟨1,1,1,101,5⟩` of the LG ledger and record `⟨1,1,1,5⟩` of the CG
ledger). -/
theorem C5_witness :
    (∃ r ∈ fpsRB, r.fid = (101 : Int) ∧
      alGet (p1AfterDay SB fpsRB vehsBaseB lgsB 1).fS 101 ≤ r.maxCap) ∧
    alGet (cgAfterDay SB capB (derivedReq lgB)
      (reqIndex (lgsB.map (fun r => r.LG_ID)) lgB) lgsB 1).1 1 ≤ alGet capB 1 := by
  have h := C5_theorem prepFPSB_eval prepVehsB_eval capB_eval runB_eval
    (by norm_num [fpsRB])
  exact ⟨h.1 ⟨1, 1, 1, 101, 5⟩ (by norm_num [lgB]),
    h.2 ⟨1, 1, 1, 5⟩ (by norm_num [cgB])⟩

/-!
## Claim C6

Non-negativity of all tracked and recorded stocks.  Outlet consumption is
clamped at zero, every LG→FPS quantity is bounded by the source depot
stock read at dispatch time, and CG stocks only grow; so all stock values
stay nonnegative as long as the input allocations are nonnegative.
-/

theorem foldl_alSet_nonneg {β : Type} (f : β → Int) (g : β → Q) :
    ∀ (l : List β) (al : AL), alNonneg al → (∀ r ∈ l, 0 ≤ g r) →
      alNonneg (l.foldl (fun a r => alSet a (f r) (g r)) al) := by
  intro l
  induction l with
  | nil => intro al h _; exact h
  | cons r rs ih =>
    intro al h hg
    exact ih _ (alNonneg_alSet h (hg r (List.mem_cons_self _ _)))
      (fun x hx => hg x (List.mem_cons_of_mem _ hx))

theorem initLGStock_nonneg {lgs : List LGRow}
    (ha : ∀ r ∈ lgs, 0 ≤ r.Initial_Allocation_tons) : alNonneg (initLGStock lgs) := by
  unfold initLGStock
  exact foldl_alSet_nonneg (fun r => r.LG_ID) (fun r => r.Initial_Allocation_tons)
    lgs [] (fun p hp => by simp at hp) ha

theorem initFPSStock_nonneg (fps : List FPSRec) : alNonneg (initFPSStock fps) := by
  unfold initFPSStock
  exact foldl_alSet_nonneg (fun r => r.fid) (fun _ => 0) fps []
    (fun p hp => by simp at hp) (fun _ _ => le_refl 0)

theorem initCGStock_nonneg {lgs : List LGRow}
    (hb : ∀ r ∈ lgs, 0 ≤ r.Initial_LG_Stock) : alNonneg (initCGStock lgs) := by
  unfold initCGStock
  exact foldl_alSet_nonneg (fun r => r.LG_ID) (fun r => r.Initial_LG_Stock)
    lgs [] (fun p hp => by simp at hp) hb

theorem consumeDay_nonneg : ∀ (fps : List FPSRec) (fS : AL), alNonneg fS →
    alNonneg (consumeDay fps fS) := by
  intro fps
  induction fps with
  | nil => intro fS h; exact h
  | cons r rs ih =>
    intro fS h
    show alNonneg (consumeDay rs (alSet fS r.fid (qmax 0 (alGet fS r.fid - r.daily))))
    exact ih _ (alNonneg_alSet h (qmax_zero_nonneg _))

theorem dispatchOne_nonneg (S : Settings) (day : Nat) (st : P1State) (n : Need)
    (hl : alNonneg st.lgS) (hf2 : alNonneg st.fS) :
    alNonneg (dispatchOne S day st n).lgS ∧ alNonneg (dispatchOne S day st n).fS := by
  rcases dispatchOne_cases S day st n with heq | ⟨chosen, rest, hs, hq, heq⟩
  · rw [heq]; exact ⟨hl, hf2⟩
  · rw [heq]
    have hqpos : 0 < qmin chosen.1.cap (qmin n.qty (alGet st.lgS n.lgid)) :=
      lt_of_not_le hq
    constructor
    · apply alNonneg_alSet hl
      have hle : qmin chosen.1.cap (qmin n.qty (alGet st.lgS n.lgid)) ≤
          alGet st.lgS n.lgid := le_trans (qmin_le_right _ _) (qmin_le_right _ _)
      linarith
    · apply alNonneg_alSet hf2
      have := alGet_nonneg hf2 n.fid
      linarith

theorem dispatchAll_nonneg (S : Settings) (day : Nat) :
    ∀ (needs : List Need) (st : P1State), alNonneg st.lgS → alNonneg st.fS →
      alNonneg (dispatchAll S day st needs).lgS ∧
        alNonneg (dispatchAll S day st needs).fS := by
  intro needs
  induction needs with
  | nil => intro st h1 h2; exact ⟨h1, h2⟩
  | cons n ns ih =>
    intro st h1 h2
    obtain ⟨h1a, h2a⟩ := dispatchOne_nonneg S day st n h1 h2
    exact ih (dispatchOne S day st n) h1a h2a

theorem snapsOf_nonneg (day : Nat) {lgS fS : AL} (hl : alNonneg lgS)
    (hf2 : alNonneg fS) : ∀ s ∈ snapsOf day lgS fS, 0 ≤ s.Stock_Level_tons := by
  intro s hs
  rcases List.mem_append.mp hs with hs | hs <;>
    obtain ⟨p, hp, he⟩ := List.mem_map.mp hs
  · rw [← he]; exact hl p hp
  · rw [← he]; exact hf2 p hp

theorem p1AfterDay_nonneg (S : Settings) (fpsR : List FPSRec) (vehsBase : List Veh)
    (lgs : List LGRow) (ha : ∀ r ∈ lgs, 0 ≤ r.Initial_Allocation_tons) :
    ∀ (n : Nat), alNonneg (p1AfterDay S fpsR vehsBase lgs n).lgS ∧
      alNonneg (p1AfterDay S fpsR vehsBase lgs n).fS ∧
      (∀ s ∈ (p1AfterDay S fpsR vehsBase lgs n).snaps, 0 ≤ s.Stock_Level_tons) := by
  intro n
  induction n with
  | zero =>
    refine ⟨initLGStock_nonneg ha, initFPSStock_nonneg fpsR, ?_⟩
    intro s hs
    simp [p1AfterDay] at hs
  | succ n ih =>
    obtain ⟨ihl, ihf, ihs⟩ := ih
    have hfS1 := consumeDay_nonneg fpsR _ ihf
    obtain ⟨hl2, hf2⟩ := dispatchAll_nonneg S (n + 1) _
      ⟨(p1AfterDay S fpsR vehsBase lgs n).lgS, consumeDay fpsR (p1AfterDay S fpsR vehsBase lgs n).fS,
        vehsBase.map (fun v => (v, 0)), []⟩ ihl hfS1
    refine ⟨hl2, hf2, ?_⟩
    intro s hs
    rcases List.mem_append.mp hs with hs | hs
    · exact ihs s hs
    · exact snapsOf_nonneg (n + 1) hl2 hf2 s hs

theorem serveLG_nonneg (S : Settings) (cap : AL) (day : Nat) (lg : Int) :
    ∀ (tl : Nat) (need : Q) (st : AL), alNonneg st →
      alNonneg (serveLG S cap day lg tl need st).1 := by
  intro tl
  induction tl with
  | zero => intro need st h; exact h
  | succ tl ih =>
    intro need st h
    simp only [serveLG]
    split_ifs with h1 h2
    · exact h
    · exact h
    · dsimp only
      refine ih _ _ (alNonneg_alSet h ?_)
      have hpos : 0 < qmin S.TRUCK_CAP (qmin need (free_room cap st lg)) := by
        have := eps_pos; linarith [not_le.mp h2]
      have := alGet_nonneg h lg
      linarith

theorem cgServeList_nonneg (S : Settings) (cap : AL) (req : Int → Nat → Q)
    (day : Nat) : ∀ (lst : List Int) (tl : Nat) (st : AL), alNonneg st →
      alNonneg (cgServeList S cap req day lst tl st).1 := by
  intro lst
  induction lst with
  | nil => intro tl st h; exact h
  | cons l rest ih =>
    intro tl st h
    simp only [cgServeList]
    exact ih _ _ (serveLG_nonneg S cap day l tl _ st h)

theorem cgAfterDay_nonneg (S : Settings) (cap : AL) (req : Int → Nat → Q)
    (idx : List Int) (lgs : List LGRow)
    (hb : ∀ r ∈ lgs, 0 ≤ r.Initial_LG_Stock) :
    ∀ (n : Nat), alNonneg (cgAfterDay S cap req idx lgs n).1 := by
  intro n
  induction n with
  | zero => exact initCGStock_nonneg hb
  | succ n ih =>
    simp only [cgAfterDay]
    exact cgServeList_nonneg S cap req (n + 1) idx S.TOT_V _ ih

/-- C6: with nonnegative initial allocations, every stock snapshot and
every tracked per-day stock value (phase-1 depot and outlet dicts, CG
depot dict) is nonnegative: consumption is clamped at zero and every
dispatched quantity is bounded by the source stock read at dispatch
time. -/
theorem C6_theorem {wb : Workbook} {S : Settings} {lgs : List LGRow}
    {fps : List FPSRow} {veh : List VehicleRow} {cg : List CGDispatch}
    {lgR : List LGDispatch} {sn : List SnapRow}
    {fpsR : List FPSRec} {vehsBase : List Veh} {cap : AL}
    (hf : prepFPS S (lgs.map (fun r => r.LG_ID)) (buildNameMap lgs) fps = .ok fpsR)
    (hv : prepVehicles S (lgs.map (fun r => r.LG_ID)) (buildNameMap lgs) veh = .ok vehsBase)
    (hc : resolveCapacity wb lgs = .ok cap)
    (h : run_simulation wb S lgs fps veh = .ok (cg, lgR, sn))
    (ha : ∀ r ∈ lgs, 0 ≤ r.Initial_Allocation_tons)
    (hb : ∀ r ∈ lgs, 0 ≤ r.Initial_LG_Stock) :
    (∀ s ∈ sn, 0 ≤ s.Stock_Level_tons) ∧
    (∀ d, alNonneg (p1AfterDay S fpsR vehsBase lgs d).lgS ∧
      alNonneg (p1AfterDay S fpsR vehsBase lgs d).fS) ∧
    (∀ d, alNonneg (cgAfterDay S cap (derivedReq lgR)
      (reqIndex (lgs.map (fun r => r.LG_ID)) lgR) lgs d).1) := by
  obtain ⟨hlg, hsn, hcg⟩ := run_ok_elim hf hv hc h
  subst hlg
  refine ⟨?_, ?_, ?_⟩
  · rw [hsn]
    exact (p1AfterDay_nonneg S fpsR vehsBase lgs ha S.DAYS).2.2
  · intro d
    exact ⟨(p1AfterDay_nonneg S fpsR vehsBase lgs ha d).1,
      (p1AfterDay_nonneg S fpsR vehsBase lgs ha d).2.1⟩
  · intro d
    exact cgAfterDay_nonneg S cap _ _ lgs hb d

/-- Witness for C6: nonnegativity applied to input B at day 1. -/
theorem C6_witness :
    (∀ s ∈ snapB, 0 ≤ s.Stock_Level_tons) ∧
    (alNonneg (p1AfterDay SB fpsRB vehsBaseB lgsB 1).lgS ∧
      alNonneg (p1AfterDay SB fpsRB vehsBaseB lgsB 1).fS) ∧
    alNonneg (cgAfterDay SB capB (derivedReq lgB)
      (reqIndex (lgsB.map (fun r => r.LG_ID)) lgB) lgsB 1).1 := by
  have h := C6_theorem prepFPSB_eval prepVehsB_eval capB_eval runB_eval
    (by intro r hr; simp only [lgsB, List.mem_singleton] at hr; subst hr; norm_num)
    (by intro r hr; simp only [lgsB, List.mem_singleton] at hr; subst hr; norm_num)
  exact ⟨h.1, h.2.1 1, h.2.2 1⟩

/-!
## Claim C7

Urgency scoring and processing order of the LG→FPS candidates.  The
needs list processed by the dispatch loop is exactly
`sortNeedsDesc (computeNeeds ...)` — a deterministic, stable descending
sort (the embedding of Python `list.sort(key, reverse=True)`), so the
order is a pure function of the input ordering.
-/

theorem computeNeeds_urgency (lgS fS : AL) :
    ∀ (l : List FPSRec), ∀ n ∈ computeNeeds lgS fS l,
      ∃ r ∈ l, n.fid = r.fid ∧ n.lgid = r.lgid ∧
        n.urgency =
          (if 0 < r.daily then (r.threshold - alGet fS r.fid) / r.daily else 0) := by
  intro l
  induction l with
  | nil => intro n hn; simp [computeNeeds] at hn
  | cons r rs ih =>
    intro n hn
    rcases computeNeeds_cons lgS fS r rs with ⟨_, _, he⟩ | he
    · rw [he] at hn
      rcases List.mem_cons.mp hn with hn | hn
      · subst hn
        exact ⟨r, List.mem_cons_self r rs, rfl, rfl, rfl⟩
      · obtain ⟨r2, hr2, u1, u2, u3⟩ := ih n hn
        exact ⟨r2, List.mem_cons_of_mem r hr2, u1, u2, u3⟩
    · rw [he] at hn
      obtain ⟨r2, hr2, u1, u2, u3⟩ := ih n hn
      exact ⟨r2, List.mem_cons_of_mem r hr2, u1, u2, u3⟩

/-- C7: the candidate list processed by the dispatch loop is sorted in
descending urgency (ties keeping input order — a deterministic stable
order), is a permutation of the computed candidates, and each candidate's
urgency is `(threshold - stock)/daily demand`, taken as 0 when the daily
demand is 0 (demands assumed nonnegative). -/
theorem C7_theorem (fpsR : List FPSRec) (lgS fS : AL)
    (hd : ∀ r ∈ fpsR, 0 ≤ r.daily) :
    (sortNeedsDesc (computeNeeds lgS fS fpsR)).Pairwise
      (fun a b => b.urgency ≤ a.urgency) ∧
    (sortNeedsDesc (computeNeeds lgS fS fpsR)).Perm (computeNeeds lgS fS fpsR) ∧
    (∀ n ∈ computeNeeds lgS fS fpsR, ∃ r ∈ fpsR, n.fid = r.fid ∧
      (r.daily = 0 → n.urgency = 0) ∧
      (r.daily ≠ 0 → n.urgency = (r.threshold - alGet fS r.fid) / r.daily)) := by
  refine ⟨sortNeedsDesc_sorted _, sortNeedsDesc_perm _, ?_⟩
  intro n hn
  obtain ⟨r, hr, he1, _, he3⟩ := computeNeeds_urgency lgS fS fpsR n hn
  refine ⟨r, hr, he1, ?_, ?_⟩
  · intro h0
    rw [he3, if_neg (by rw [h0]; exact lt_irrefl 0)]
  · intro h0
    have hpos : 0 < r.daily := lt_of_le_of_ne (hd r hr) (Ne.symm h0)
    rw [he3, if_pos hpos]

/-- Witness for C7: the ordering facts at a concrete day-state of
input B. -/
theorem C7_witness :
    (sortNeedsDesc (computeNeeds [(1, 10)] [(101, 0)] fpsRB)).Pairwise
      (fun a b => b.urgency ≤ a.urgency) ∧
    (sortNeedsDesc (computeNeeds [(1, 10)] [(101, 0)] fpsRB)).Perm
      (computeNeeds [(1, 10)] [(101, 0)] fpsRB) ∧
    (∀ n ∈ computeNeeds [(1, 10)] [(101, 0)] fpsRB, ∃ r ∈ fpsRB, n.fid = r.fid ∧
      (r.daily = 0 → n.urgency = 0) ∧
      (r.daily ≠ 0 → n.urgency = (r.threshold - alGet [(101, 0)] r.fid) / r.daily)) :=
  C7_theorem fpsRB [(1, 10)] [(101, 0)]
    (by intro r hr; simp only [fpsRB, List.mem_singleton] at hr; subst hr; norm_num)

/-!
## Claim C8

Vehicle choice in the LG→FPS phase.  `sort_values([is_shared],
ascending=False)` in pandas computes a stable ascending argsort and then
reverses the WHOLE indexer, so equal keys end up in reverse input order.
Shared vehicles are still always preferred (they occupy the front of the
reversed list), but ties between equally shared vehicles are broken by
REVERSE input order, not input order.
-/

theorem insBoolAsc_false {key : α → Bool} {x : α} (hx : key x = false) :
    ∀ (l : List α), insBoolAsc key x l = x :: l := by
  intro l
  cases l with
  | nil => rfl
  | cons y ys => simp [insBoolAsc, srank, hx]

theorem insBoolAsc_true {key : α → Bool} {x : α} (hx : key x = true) :
    ∀ (A B : List α), (∀ a ∈ A, key a = false) → (∀ b ∈ B, key b = true) →
      insBoolAsc key x (A ++ B) = A ++ x :: B := by
  intro A
  induction A with
  | nil =>
    intro B _ hB
    cases B with
    | nil => rfl
    | cons b bs =>
      simp [insBoolAsc, srank, hx, hB b (List.mem_cons_self _ _)]
  | cons a as ih =>
    intro B hA hB
    have ha := hA a (List.mem_cons_self _ _)
    simp only [List.cons_append, insBoolAsc, srank, hx, ha]
    rw [if_neg (by norm_num)]
    exact congrArg (fun t => a :: t)
      (ih B (fun z hz => hA z (List.mem_cons_of_mem _ hz)) hB)

theorem stableAscBy_eq_filter (key : α → Bool) :
    ∀ (l : List α),
      stableAscBy key l = l.filter (fun x => !key x) ++ l.filter key := by
  intro l
  induction l with
  | nil => rfl
  | cons x xs ih =>
    show insBoolAsc key x (stableAscBy key xs) = _
    rw [ih]
    by_cases hx : key x = true
    · rw [insBoolAsc_true hx _ _
        (fun a ha => by simpa using (List.mem_filter.mp ha).2)
        (fun b hb => (List.mem_filter.mp hb).2)]
      rw [List.filter_cons, List.filter_cons]
      simp [hx]
    · have hx2 : key x = false := Bool.not_eq_true _ ▸ hx
      rw [insBoolAsc_false hx2]
      rw [List.filter_cons, List.filter_cons]
      simp [hx2]

/-- C8 (amended): the head of the sorted candidate frame — the chosen
vehicle — is the LAST shared candidate in input order when any shared
candidate exists, else the LAST candidate overall: shared vehicles are
preferred, but remaining ties are broken by reverse input order. -/
theorem C8_theorem (l : List (Veh × Nat)) :
    (sort_values_desc (fun p => isShared p.1) l).head? =
      if (l.filter (fun p => isShared p.1)).isEmpty then l.getLast?
      else (l.filter (fun p => isShared p.1)).getLast? := by
  unfold sort_values_desc
  rw [stableAscBy_eq_filter, List.reverse_append, List.head?_append,
    List.head?_reverse, List.head?_reverse]
  cases hB : l.filter (fun p => isShared p.1) with
  | nil =>
    have hall : l.filter (fun x => !isShared x.1) = l := by
      rw [List.filter_eq_self]
      intro a ha
      have := List.filter_eq_nil_iff.mp hB a ha
      simpa using this
    simp [hall]
  | cons b bs =>
    have : (b :: bs).getLast? = some ((b :: bs).getLast (by simp)) :=
      List.getLast?_eq_getLast _ _
    simp [this]

/-- C8 (counterexample): on input D both vehicles are shared (mapped to
two LGs) and both qualify for the single candidate; the claim says the
tie is broken by input order (vehicle 1), but the emitted record carries
vehicle 2 — the later vehicle in table order. -/
theorem C8_counterexample :
    run_simulation wbD SD lgsD fpsD vehsD = .ok (cgD, lgD, snapD) ∧
    lgD = [⟨1, 2, 1, 101, 5⟩] ∧
    prepVehicles SD (lgsD.map (fun r => r.LG_ID)) (buildNameMap lgsD) vehsD =
      .ok [⟨1, 5, [1, 2]⟩, ⟨2, 5, [1, 2]⟩] ∧
    isShared ⟨1, 5, [1, 2]⟩ = true ∧ isShared ⟨2, 5, [1, 2]⟩ = true := by
  refine ⟨runD_eval, rfl, ?_, rfl, rfl⟩
  norm_num [prepVehicles, prepVehRow, SD, lgsD, vehsD, parse_lg_list,
    normalize_lg_ref, sortInts, insInt, List.dedup, List.filterMap]

/-!
## Claim C9

Vehicle-depot mapping exclusion.  It holds for the depot→outlet ledger —
the candidate filter admits only vehicles whose mapped list contains the
depot — but the central→depot ledger assigns the rotating synthetic ids
`1..TOT_V` with no reference to the mapping at all, so a vehicle id mapped
only to depot A can appear in a CG record for depot B.
-/

theorem dispatchAll_mapped (S : Settings) (day : Nat) (vehsBase : List Veh) :
    ∀ (needs : List Need) (st : P1State),
      (∀ p ∈ st.vehs, p.1 ∈ vehsBase) →
      (∀ rec ∈ st.rows, ∃ v ∈ vehsBase, v.vid = rec.Vehicle_ID ∧
          rec.LG_ID ∈ v.mapped) →
      ∀ rec ∈ (dispatchAll S day st needs).rows,
        ∃ v ∈ vehsBase, v.vid = rec.Vehicle_ID ∧ rec.LG_ID ∈ v.mapped := by
  intro needs
  induction needs with
  | nil => intro st _ h2; exact h2
  | cons n ns ih =>
    intro st h1 h2
    rcases dispatchOne_cases S day st n with heq | ⟨chosen, rest, hs, hq, heq⟩
    · refine ih (dispatchOne S day st n) ?_ ?_
      · intro p hp; rw [heq] at hp; exact h1 p hp
      · intro rec hrec; rw [heq] at hrec; exact h2 rec hrec
    · obtain ⟨hc_mem, hc_lg, hc_lt⟩ := chosen_mem_cand hs
      refine ih (dispatchOne S day st n) ?_ ?_
      · intro p hp
        rw [heq] at hp
        obtain ⟨q, hq_mem, hq_eq⟩ := List.mem_map.mp hp
        have hq1 := h1 q hq_mem
        by_cases hvq : q.1.vid = chosen.1.vid
        · rw [if_pos hvq] at hq_eq; rw [← hq_eq]; exact hq1
        · rw [if_neg hvq] at hq_eq; rw [← hq_eq]; exact hq1
      · intro rec hrec
        rw [heq] at hrec
        rcases List.mem_append.mp hrec with hrec | hrec
        · exact h2 rec hrec
        · simp only [List.mem_singleton] at hrec
          subst hrec
          exact ⟨chosen.1, h1 chosen hc_mem, rfl, hc_lg⟩

theorem p1AfterDay_mapped (S : Settings) (fpsR : List FPSRec)
    (vehsBase : List Veh) (lgs : List LGRow) :
    ∀ (n : Nat), ∀ rec ∈ (p1AfterDay S fpsR vehsBase lgs n).rows,
      ∃ v ∈ vehsBase, v.vid = rec.Vehicle_ID ∧ rec.LG_ID ∈ v.mapped := by
  intro n
  induction n with
  | zero => intro rec hrec; simp [p1AfterDay] at hrec
  | succ n ih =>
    intro rec hrec
    have hrec2 : rec ∈ (p1AfterDay S fpsR vehsBase lgs n).rows ++
        (dispatchAll S (n + 1)
          ⟨(p1AfterDay S fpsR vehsBase lgs n).lgS,
            consumeDay fpsR (p1AfterDay S fpsR vehsBase lgs n).fS,
            vehsBase.map (fun v => (v, 0)), []⟩
          (sortNeedsDesc (computeNeeds (p1AfterDay S fpsR vehsBase lgs n).lgS
            (consumeDay fpsR (p1AfterDay S fpsR vehsBase lgs n).fS) fpsR))).rows :=
      hrec
    rcases List.mem_append.mp hrec2 with hold | hnew
    · exact ih rec hold
    · refine dispatchAll_mapped S (n + 1) vehsBase _ _ ?_ ?_ rec hnew
      · intro p hp
        obtain ⟨q, hq_mem, hq_eq⟩ := List.mem_map.mp hp
        rw [← hq_eq]
        exact hq_mem
      · intro r2 hr2; simp at hr2

/-- C9 (counterexample): on input E, vehicle 1 is mapped only to depot 1,
yet the central→depot ledger contains the record `⟨1, 1, 2, 5⟩` — vehicle
id 1 delivering to depot 2. -/
theorem C9_counterexample :
    run_simulation wbE SE lgsE fpsE vehsE = .ok (cgE, lgE, snapE) ∧
    prepVehicles SE (lgsE.map (fun r => r.LG_ID)) (buildNameMap lgsE) vehsE =
      .ok vehsBaseE ∧
    vehsBaseE = [⟨1, 5, [1]⟩, ⟨2, 5, [2]⟩] ∧
    (⟨1, 1, 2, 5⟩ : CGDispatch) ∈ cgE ∧
    ¬ ((2 : Int) ∈ (⟨1, 5, [1]⟩ : Veh).mapped) := by
  exact ⟨runE_eval, prepVehsE_eval, rfl, by norm_num [cgE], by norm_num⟩

/-- C9 (amended): the exclusion holds for the depot→outlet ledger: every
record's vehicle id belongs to a vehicle whose mapped-depot list contains
the record's depot.  The central→depot ledger is exempt — it uses
rotating ids `1..TOT_V` that ignore the mapping. -/
theorem C9_theorem {wb : Workbook} {S : Settings} {lgs : List LGRow}
    {fps : List FPSRow} {veh : List VehicleRow} {cg : List CGDispatch}
    {lgR : List LGDispatch} {sn : List SnapRow} {vehsBase : List Veh}
    (hv : prepVehicles S (lgs.map (fun r => r.LG_ID)) (buildNameMap lgs) veh =
      .ok vehsBase)
    (h : run_simulation wb S lgs fps veh = .ok (cg, lgR, sn)) :
    ∀ rec ∈ lgR, ∃ v ∈ vehsBase, v.vid = rec.Vehicle_ID ∧ rec.LG_ID ∈ v.mapped := by
  obtain ⟨fpsR, vehsBase2, cap, hf, hv2, hc, hlg, hsn, hcg⟩ := run_ok_inv h
  rw [hv] at hv2
  injection hv2 with he
  subst he
  subst hlg
  exact p1AfterDay_mapped S fpsR vehsBase lgs S.DAYS

/-- Witness for C9: the amended mapping property applied to the single
depot→outlet record of input E. -/
theorem C9_witness :
    ∃ v ∈ vehsBaseE, v.vid = (⟨1, 2, 2, 101, 5⟩ : LGDispatch).Vehicle_ID ∧
      (⟨1, 2, 2, 101, 5⟩ : LGDispatch).LG_ID ∈ v.mapped :=
  C9_theorem prepVehsE_eval runE_eval ⟨1, 2, 2, 101, 5⟩ (by norm_num [lgE])

/-!
## Claim C10

The UI layer calls `run_simulation(settings, lgs, fps, vehicles)` — four
positional arguments for a function requiring five positional parameters
with no defaults.  Python raises `TypeError` while binding the call, so
the simulation body never executes and no output tables are produced,
whatever workbook was uploaded.
-/

/-- C10: triggering the simulation through the UI call as written always
raises and never yields the three output tables. -/
theorem C10_theorem (wb : Workbook) (S : Settings) (lgs : List LGRow)
    (fps : List FPSRow) (veh : List VehicleRow) :
    app1_trigger wb S lgs fps veh =
      .error "TypeError: run_simulation() positional arguments do not match" ∧
    ∀ out, app1_trigger wb S lgs fps veh ≠ .ok out := by
  have he : app1_trigger wb S lgs fps veh =
      .error "TypeError: run_simulation() positional arguments do not match" := rfl
  exact ⟨he, fun out h => Except.noConfusion (he.symm.trans h)⟩

end Sim
